import Mathlib

/-!
# CWL leaderboard: war-stat validation, aggregation and ranking

A shallow embedding of the war-stat core of the CWL leaderboard application:

* `client/src/App.jsx`: `clampNumber`, `normalizeWar`, `computeTotals`,
  `buildLeaderboard`, `handleWarFieldChange`, `updateWar`, `saveAllWarData` and
  the text built by `exportCSV`;
* `server/src/routes/players.js`: `clamp`, `parseWarPayload` and the routes
  `PUT /:id/war/:warIndex`, `POST /reset-war/:warIndex` and `DELETE /:id`;
* `server/src/models/Player.js`: the defaults of a new player document;
* `server/src/index.js`: the error-handling middleware.

## Modelling conventions

* A JavaScript number is a `JSNum`: `NaN`, `+Infinity`, `-Infinity`, or a finite
  value, represented by the rational number it denotes; `-0` is identified with
  `0`. Numbers are IEEE 754 doubles: the conversion of a numeric literal and the
  additions and subtractions of `computeTotals` round the exact result to the
  nearest double, ties to the even significand (`roundDouble`, `addDouble`,
  `subDouble`).
* War statistics held by players are finite numbers (`ℚ`): they travel as JSON,
  which has no encoding for `NaN` or the infinities, and both validation layers
  only ever produce finite values. Their sums stay far below the largest double,
  so an addition that overflows to an infinity is not modelled.
* A value that reaches `Number(...)` is a `JSValue`: `undefined` (also standing
  for an absent property), `null`, a boolean, a number or a string.
* `Array.prototype.sort` is a stable sort driven by the sign of the comparator.
* `String.prototype.localeCompare` depends on the collation of the host, so it is
  a parameter `lc`; ECMAScript requires it to be a consistent comparator.
* The player collection is a map from `_id` to document, an `_id` being an
  ObjectId, identified with the 24 hexadecimal digits that spell it. A query by an
  id that Mongoose cannot cast to an ObjectId throws, and the error handler of
  `index.js` answers with status 500. A route runs as one step; the requests of a
  fan-out are served in the order of the working set.
* What happens to a request between client and route (authentication, network)
  is given by a `Link` for each request of a fan-out.
* The React state of the coordinator is a `ClientState`; a state update with an
  updater function is that function applied to the state.
-/

namespace CWL

/-! ## JavaScript numbers and `Number(value)` -/

/-- A JavaScript number: the three special values, or a finite value. -/
inductive JSNum where
  | nan
  | posInf
  | negInf
  | fin (q : ℚ)
  deriving DecidableEq

/-- A primitive JavaScript value, as found in a form field or a JSON body. -/
inductive JSValue where
  | undefined
  | null
  | bool (b : Bool)
  | num (n : JSNum)
  | str (s : String)
  deriving DecidableEq

/-- ECMAScript `StrWhiteSpaceChar`: white space and line terminators. -/
def isStrWhiteSpaceChar (c : Char) : Bool :=
  let n := c.toNat
  n == 0x9 || n == 0xA || n == 0xB || n == 0xC || n == 0xD || n == 0x20 || n == 0xA0 ||
    n == 0x1680 || (0x2000 ≤ n && n ≤ 0x200A) || n == 0x2028 || n == 0x2029 ||
    n == 0x202F || n == 0x205F || n == 0x3000 || n == 0xFEFF

/-- Strips leading and trailing `StrWhiteSpaceChar`s. -/
def trimChars (cs : List Char) : List Char :=
  ((cs.dropWhile isStrWhiteSpaceChar).reverse.dropWhile isStrWhiteSpaceChar).reverse

/-- Value of a digit in the given base (`0-9`, `a-f`, `A-F`), if it is one. -/
def digit? (base : Nat) (c : Char) : Option Nat :=
  let n := c.toNat
  let v : Option Nat :=
    if 48 ≤ n ∧ n ≤ 57 then some (n - 48)
    else if 97 ≤ n ∧ n ≤ 102 then some (n - 87)
    else if 65 ≤ n ∧ n ≤ 70 then some (n - 55)
    else none
  v.bind fun d => if d < base then some d else none

/-- Accumulates the value of a run of digits; `none` if a character is not a digit. -/
def digitsFrom (base : Nat) : Nat → List Char → Option Nat
  | acc, [] => some acc
  | acc, c :: cs => (digit? base c).bind fun d => digitsFrom base (acc * base + d) cs

/-- Value of a non-empty run of digits. -/
def digits? (base : Nat) : List Char → Option Nat
  | [] => none
  | cs => digitsFrom base 0 cs

/-- Splits at the first character satisfying `p`: the part before it, and the part
after it when there is such a character. -/
def cutAt (p : Char → Bool) : List Char → List Char × Option (List Char)
  | [] => ([], none)
  | c :: cs => if p c then ([], some cs) else ((cutAt p cs).1.cons c, (cutAt p cs).2)

/-- The mantissa of a decimal literal: `digits`, `digits.`, `digits.digits` or
`.digits`. -/
def mantissa? (cs : List Char) : Option ℚ :=
  match cutAt (fun c => c == '.') cs with
  | (ip, none) => (digits? 10 ip).map fun i => (i : ℚ)
  | ([], some []) => none
  | (ip, some fp) =>
    (if ip = [] then some 0 else digits? 10 ip).bind fun i =>
    (if fp = [] then some 0 else digits? 10 fp).map fun f =>
      (i : ℚ) + (f : ℚ) / (10 : ℚ) ^ fp.length

/-- The exponent part of a decimal literal (what follows `e` or `E`), `0` when
there is none. -/
def exponent? : Option (List Char) → Option ℤ
  | none => some 0
  | some ('+' :: ds) => (digits? 10 ds).map fun n => (n : ℤ)
  | some ('-' :: ds) => (digits? 10 ds).map fun n => -(n : ℤ)
  | some ds => (digits? 10 ds).map fun n => (n : ℤ)

/-- ECMAScript `StrUnsignedDecimalLiteral` without the `Infinity` alternative. -/
def unsignedDecimal? (cs : List Char) : Option ℚ :=
  match cutAt (fun c => c == 'e' || c == 'E') cs with
  | (mant, expo) =>
    (mantissa? mant).bind fun m => (exponent? expo).map fun e => m * (10 : ℚ) ^ e

/-- The quotient `n / d` rounded to the nearest natural number, a tie going to the
even neighbour. -/
def roundHalfEven (n d : Nat) : Nat :=
  let f := n / d
  let r := n % d
  if 2 * r < d then f else if d < 2 * r then f + 1 else if f % 2 = 0 then f else f + 1

/-- Halves `n` until it is below `2`, at most `fuel` times, and counts the steps. -/
def log2Go : Nat → Nat → Nat
  | 0, _ => 0
  | fuel + 1, n => if 2 ≤ n then log2Go fuel (n / 2) + 1 else 0

/-- The position of the leading bit of `n`: the largest `e` with `2 ^ e ≤ n`, and
`0` for `n = 0`. -/
def log2 (n : Nat) : Nat := log2Go n n

/-- The binary exponent of the positive fraction `n / d`: the integer `e` with
`2 ^ e ≤ n / d < 2 ^ (e + 1)`. -/
def floorLog2 (n d : Nat) : Int :=
  let e : Int := (log2 n : Int) - (log2 d : Int)
  if (if 0 ≤ e then d * 2 ^ e.toNat ≤ n else d ≤ n * 2 ^ (-e).toNat) then e else e - 1

/-- Rounding of an exact value to IEEE 754 double precision, round to nearest, ties
to even: the result is the nearest multiple of `2 ^ k`, where `k` is the exponent of
the last of the 53 significand bits (`-1074` in the subnormal range). Overflow is
left to the caller. -/
def roundDouble (q : ℚ) : ℚ :=
  if q = 0 then 0
  else
    let n := q.num.natAbs
    let k : Int := max (floorLog2 n q.den) (-1022) - 52
    let m : Nat :=
      if 0 ≤ k then roundHalfEven n (q.den * 2 ^ k.toNat)
      else roundHalfEven (n * 2 ^ (-k).toNat) q.den
    let r : ℚ := (m : ℚ) * (2 : ℚ) ^ k
    if q < 0 then -r else r

/-- The operator `+` on two finite numbers. -/
def addDouble (a b : ℚ) : ℚ := roundDouble (a + b)

/-- The operator `-` on two finite numbers. -/
def subDouble (a b : ℚ) : ℚ := roundDouble (a - b)

/-- Magnitudes from this bound on round to an infinity in IEEE 754 double
precision. -/
def overflowBound : ℚ := 2 ^ 1024 - 2 ^ 970

/-- The number denoted by an exact literal value: the nearest double, or an
infinity from the overflow bound on. -/
def ofExact (q : ℚ) : JSNum :=
  if overflowBound ≤ q then .posInf else if q ≤ -overflowBound then .negInf
  else .fin (roundDouble q)

/-- ECMAScript `StrDecimalLiteral`: an optional sign, then `Infinity` or an
unsigned decimal literal. -/
def strDecimalLiteral (cs : List Char) : JSNum :=
  let sb : Bool × List Char :=
    match cs with
    | '+' :: r => (false, r)
    | '-' :: r => (true, r)
    | r => (false, r)
  if sb.2 = "Infinity".toList then (if sb.1 then .negInf else .posInf)
  else
    match unsignedDecimal? sb.2 with
    | some q => ofExact (if sb.1 then -q else q)
    | none => .nan

/-- ECMAScript `NonDecimalIntegerLiteral`: hexadecimal, octal or binary. -/
def nonDecimal? : List Char → Option Nat
  | '0' :: 'x' :: ds => digits? 16 ds
  | '0' :: 'X' :: ds => digits? 16 ds
  | '0' :: 'o' :: ds => digits? 8 ds
  | '0' :: 'O' :: ds => digits? 8 ds
  | '0' :: 'b' :: ds => digits? 2 ds
  | '0' :: 'B' :: ds => digits? 2 ds
  | _ => none

/-- ECMAScript `StringToNumber`: the empty or blank string is `0`, a string that
is no numeric literal is `NaN`. -/
def stringToNumber (s : String) : JSNum :=
  let cs := trimChars s.toList
  if cs = [] then .fin 0
  else
    match nonDecimal? cs with
    | some n => ofExact n
    | none => strDecimalLiteral cs

/-- ECMAScript `Number(value)` on primitive values. -/
def Number : JSValue → JSNum
  | .undefined => .nan
  | .null => .fin 0
  | .bool true => .fin 1
  | .bool false => .fin 0
  | .num n => n
  | .str s => stringToNumber s

/-! ## Data model (client) -/

/-- The constant `WAR_COUNT` of `App.jsx` and `routes/players.js`. -/
def WAR_COUNT : Nat := 7

/-- A complete war slot: all four statistics present. -/
structure War where
  attackStars : ℚ
  attackPct : ℚ
  defenseStars : ℚ
  defensePct : ℚ
  deriving DecidableEq

/-- A war slot as found in a player document: any of the four properties may be
absent. -/
structure WarDoc where
  attackStars : Option ℚ
  attackPct : Option ℚ
  defenseStars : Option ℚ
  defensePct : Option ℚ
  deriving DecidableEq

/-- The constant `DEFAULT_WAR` of `App.jsx`. -/
def DEFAULT_WAR : War :=
  { attackStars := 0, attackPct := 0, defenseStars := 0, defensePct := 0 }

/-- The function `normalizeWar` of `App.jsx`: `{ ...DEFAULT_WAR, ...(war || {}) }`.
An absent (or `null`) slot is `none`. -/
def normalizeWar (war : Option WarDoc) : War :=
  match war with
  | none => DEFAULT_WAR
  | some w =>
    { attackStars := w.attackStars.getD DEFAULT_WAR.attackStars
      attackPct := w.attackPct.getD DEFAULT_WAR.attackPct
      defenseStars := w.defenseStars.getD DEFAULT_WAR.defenseStars
      defensePct := w.defensePct.getD DEFAULT_WAR.defensePct }

/-- A player as held by the client. The property `wars` may be absent, and each
entry of the array may be missing. -/
structure Player where
  _id : String
  name : String
  wars : Option (List (Option WarDoc))
  deriving DecidableEq

/-- The expression `player.wars?.[idx]`. -/
def Player.warAt (player : Player) (idx : Nat) : Option WarDoc :=
  match player.wars with
  | none => none
  | some ws => (ws.get? idx).join

/-- The accumulator and result of `computeTotals`. -/
structure Totals where
  attackStars : ℚ
  attackPct : ℚ
  defenseStars : ℚ
  defensePct : ℚ
  netStars : ℚ
  netPct : ℚ
  deriving DecidableEq

/-- The function `computeTotals` of `App.jsx`. Every `+` and `-` of the reducer is
the operation on doubles. -/
def computeTotals (player : Player) : Totals :=
  let wars := (List.range WAR_COUNT).map fun idx => normalizeWar (player.warAt idx)
  wars.foldl
    (fun acc war =>
      { attackStars := addDouble acc.attackStars war.attackStars
        attackPct := addDouble acc.attackPct war.attackPct
        defenseStars := addDouble acc.defenseStars war.defenseStars
        defensePct := addDouble acc.defensePct war.defensePct
        netStars := addDouble acc.netStars (subDouble war.attackStars war.defenseStars)
        netPct := addDouble acc.netPct (subDouble war.attackPct war.defensePct) })
    { attackStars := 0, attackPct := 0, defenseStars := 0, defensePct := 0,
      netStars := 0, netPct := 0 }

/-- The sum of a list of numbers as a loop computes it: from `0`, one rounded
addition per element, left to right. -/
def sumDouble (values : List ℚ) : ℚ :=
  values.foldl addDouble 0

/-- The number is an integer of magnitude at most `bound`. -/
def IntegerUpTo (bound : Nat) (q : ℚ) : Prop :=
  q.den = 1 ∧ q.num.natAbs ≤ bound

instance (bound : Nat) (q : ℚ) : Decidable (IntegerUpTo bound q) :=
  inferInstanceAs (Decidable (q.den = 1 ∧ q.num.natAbs ≤ bound))

/-- The four statistics of a war slot. -/
inductive Field where
  | attackStars
  | attackPct
  | defenseStars
  | defensePct
  deriving DecidableEq

/-- The property name of a statistic. -/
def Field.key : Field → String
  | .attackStars => "attackStars"
  | .attackPct => "attackPct"
  | .defenseStars => "defenseStars"
  | .defensePct => "defensePct"

/-- Reading of the data model: the statistic `f` of slot `idx` of a player, where
a missing `wars` array, a missing slot and a missing property all count as `0`. -/
def slotValueOrZero (player : Player) (idx : Nat) (f : Field) : ℚ :=
  match player.wars with
  | none => 0
  | some ws =>
    match ws.get? idx with
    | none => 0
    | some none => 0
    | some (some w) =>
      match f with
      | .attackStars => w.attackStars.getD 0
      | .attackPct => w.attackPct.getD 0
      | .defenseStars => w.defenseStars.getD 0
      | .defensePct => w.defensePct.getD 0

/-- Every statistic of the slots 0..6 of the player, missing data counting as zero,
is an integer of magnitude at most `2 ^ 49`. -/
def Player.IntegerStats (player : Player) : Prop :=
  ∀ idx < WAR_COUNT, ∀ f ∈ [Field.attackStars, Field.attackPct, Field.defenseStars,
    Field.defensePct], IntegerUpTo (2 ^ 49) (slotValueOrZero player idx f)

instance (player : Player) : Decidable player.IntegerStats :=
  inferInstanceAs (Decidable (∀ idx < WAR_COUNT, ∀ f ∈ [Field.attackStars, Field.attackPct,
    Field.defenseStars, Field.defensePct], IntegerUpTo (2 ^ 49) (slotValueOrZero player idx f)))

/-! ## Ranking (client) -/

/-- A leaderboard row before ranking: `{ id: player._id, name: player.name, ...totals }`. -/
structure Row extends Totals where
  id : String
  name : String
  deriving DecidableEq

/-- A leaderboard row: `{ ...row, rank: idx + 1 }`. -/
structure RankedRow extends Row where
  rank : Nat
  deriving DecidableEq

/-- The projection of a player computed by the first `map` of `buildLeaderboard`. -/
def Row.ofPlayer (player : Player) : Row :=
  let totals := computeTotals player
  { id := player._id, name := player.name, toTotals := totals }

/-- The comparator passed to `totals.sort` in `buildLeaderboard`; `lc a b` stands
for `a.localeCompare(b)`. The two differences are left exact: `sort` only looks at
the sign of the result, and the difference of two different doubles, rounded, has
the sign of the exact difference. -/
def compareRows (lc : String → String → ℤ) (a b : Row) : ℚ :=
  if b.netStars ≠ a.netStars then b.netStars - a.netStars
  else if b.netPct ≠ a.netPct then b.netPct - a.netPct
  else (lc a.name b.name : ℚ)

/-- The method `Array.prototype.sort(comparefn)`: a stable sort in which `a` stays
before `b` unless `comparefn(a, b) > 0`. -/
def sort {α : Type} (comparefn : α → α → ℚ) (l : List α) : List α :=
  l.insertionSort fun a b => comparefn a b ≤ 0

/-- The function `buildLeaderboard` of `App.jsx`. -/
def buildLeaderboard (lc : String → String → ℤ) (players : List Player) : List RankedRow :=
  let totals := players.map Row.ofPlayer
  let totals := sort (compareRows lc) totals
  totals.mapIdx fun idx row => { toRow := row, rank := idx + 1 }

/-- ECMAScript's requirement on `localeCompare`: it is a consistent comparator.
Exchanging the arguments flips the sign, and "not after" is transitive. -/
def ConsistentComparator (lc : String → String → ℤ) : Prop :=
  (∀ a b, lc a b < 0 ↔ 0 < lc b a) ∧ (∀ a b c, lc a b ≤ 0 → lc b c ≤ 0 → lc a c ≤ 0)

/-- The order of the leaderboard between an earlier row `r` and a later row `s`:
more net stars first, then more net percentage, then the name not after. -/
def RankedBefore (lc : String → String → ℤ) (r s : RankedRow) : Prop :=
  r.netStars > s.netStars ∨
    (r.netStars = s.netStars ∧ r.netPct > s.netPct) ∨
    (r.netStars = s.netStars ∧ r.netPct = s.netPct ∧ lc r.name s.name ≤ 0)

/-- Lexicographic comparison of code point sequences. -/
def compareChars : List Char → List Char → ℤ
  | [], [] => 0
  | [], _ :: _ => -1
  | _ :: _, [] => 1
  | a :: as, b :: bs =>
    if a.toNat < b.toNat then -1 else if b.toNat < a.toNat then 1 else compareChars as bs

/-- A concrete collation: strings ordered by code points. -/
def codePointCompare (a b : String) : ℤ :=
  compareChars a.toList b.toList

/-- Canonical composition of a string, for the one pair of the examples: the letter
`e` followed by the combining acute accent U+0301 is the letter U+00E9. -/
def canonicalCompose : List Char → List Char
  | [] => []
  | 'e' :: '\u0301' :: rest => '\u00e9' :: canonicalCompose rest
  | c :: rest => c :: canonicalCompose rest

/-- A concrete collation that, as ECMAScript requires of `localeCompare`, returns
`0` for strings that are canonically equivalent: strings are composed, then
ordered by code points. -/
def canonicalCompare (a b : String) : ℤ :=
  compareChars (canonicalCompose a.toList) (canonicalCompose b.toList)

/-- The test of `POST /` and `PUT /:id` of `routes/players.js` for a name that is
taken: the regular expression `^name$` with flag `i`, special characters escaped,
matches an existing name that has the same code points up to the case folding
`fold` of the regular expression engine. -/
def nameMatches (fold : Char → Char) (name existing : String) : Bool :=
  name.toList.map fold == existing.toList.map fold

/-! ## Edit-time clamping (client) -/

/-- The function `clampNumber` of `App.jsx`, for finite bounds. -/
def clampNumber (value : JSValue) (min max : ℚ) : ℚ :=
  match Number value with
  | .fin num => Min.min (Max.max num min) max
  | _ => min

/-- Whether the characters `search` occur contiguously in a list of characters. -/
def includesChars (search : List Char) : List Char → Bool
  | [] => search.isEmpty
  | c :: cs => search.isPrefixOf (c :: cs) || includesChars search cs

/-- The method `String.prototype.includes`. -/
def includes (s search : String) : Bool :=
  includesChars search.toList s.toList

/-- The constant `max` of `handleWarFieldChange`:
`field.includes("Stars") ? 3 : 100`. -/
def handleWarFieldChange.max (field : Field) : ℚ :=
  if includes field.key "Stars" then 3 else 100

/-- The constant `value` of `handleWarFieldChange`, which the edit stores in the
war slot: `clampNumber(rawValue, 0, max)`. -/
def handleWarFieldChange.value (field : Field) (rawValue : JSValue) : ℚ :=
  clampNumber rawValue 0 (handleWarFieldChange.max field)

/-! ## Commit-time validation (server) -/

/-- The function `clamp` of `routes/players.js`. -/
def clamp (value min max : ℚ) : ℚ :=
  Min.min (Max.max value min) max

/-- The request body read by `parseWarPayload`; an absent property is `undefined`. -/
structure WarBody where
  attackStars : JSValue
  attackPct : JSValue
  defenseStars : JSValue
  defensePct : JSValue
  deriving DecidableEq

deriving instance DecidableEq for Except

/-- The function `parseWarPayload` of `routes/players.js`. The result `{ error }`
is `Except.error`, the result `{ war }` is `Except.ok`. The four numbers pass
`Number.isFinite` exactly when they are all of the form `JSNum.fin`. -/
def parseWarPayload (body : WarBody) : Except String War :=
  match Number body.attackStars, Number body.attackPct,
      Number body.defenseStars, Number body.defensePct with
  | .fin attackStars, .fin attackPct, .fin defenseStars, .fin defensePct =>
    if attackStars < 0 ∨ attackStars > 3 ∨ defenseStars < 0 ∨ defenseStars > 3 ∨
        attackPct < 0 ∨ attackPct > 100 ∨ defensePct < 0 ∨ defensePct > 100 then
      .error "War values out of range."
    else
      .ok
        { attackStars := clamp attackStars 0 3
          attackPct := clamp attackPct 0 100
          defenseStars := clamp defenseStars 0 3
          defensePct := clamp defensePct 0 100 }
  | _, _, _, _ => .error "All war values must be numbers."

/-- The number is finite and lies in the closed range from `lo` to `hi`. -/
def JSNum.InRange (n : JSNum) (lo hi : ℚ) : Prop :=
  ∃ q, n = .fin q ∧ lo ≤ q ∧ q ≤ hi

/-! ## Example data -/

/-- Player `A` of the ranking scenario: one slot 3/80/1/20. -/
def scenarioA : Player :=
  { _id := "a", name := "A",
    wars := some [some { attackStars := some 3, attackPct := some 80,
                         defenseStars := some 1, defensePct := some 20 }] }

/-- Player `B` of the ranking scenario: one slot 2/90/0/10. -/
def scenarioB : Player :=
  { _id := "b", name := "B",
    wars := some [some { attackStars := some 2, attackPct := some 90,
                         defenseStars := some 0, defensePct := some 10 }] }

/-- The double nearest to `0.1`, which is what the literal `0.1` denotes. -/
def tenth : ℚ := 3602879701896397 / 36028797018963968

/-- The double nearest to `0.2`, which is what the literal `0.2` denotes. -/
def fifth : ℚ := 3602879701896397 / 18014398509481984

/-- A player with fractional stars in two slots: attack `0.1` and defense `0.1`,
then attack `0.1` and defense `0.2`. -/
def fractionPlayer : Player :=
  { _id := "f", name := "F",
    wars := some [some { attackStars := some tenth, attackPct := some 0,
                         defenseStars := some tenth, defensePct := some 0 },
                  some { attackStars := some tenth, attackPct := some 0,
                         defenseStars := some fifth, defensePct := some 0 }] }

/-- The totals of a player without any war data. -/
def zeroTotals : Totals :=
  { attackStars := 0, attackPct := 0, defenseStars := 0, defensePct := 0,
    netStars := 0, netPct := 0 }

/-- A player without war data whose name ends in the letter U+00E9, an `e` with an
acute accent. -/
def tiedFirst : Player := { _id := "1", name := "Zo\u00e9", wars := none }

/-- Another player without war data, whose name ends in `e` and the combining acute
accent U+0301: a different name, canonically equivalent to that of `tiedFirst`. -/
def tiedSecond : Player := { _id := "2", name := "Zoe\u0301", wars := none }

/-- A request body whose `attackStars` is JSON `null`, the other statistics `0`. -/
def nullStarsBody : WarBody :=
  { attackStars := .null, attackPct := .num (.fin 0),
    defenseStars := .num (.fin 0), defensePct := .num (.fin 0) }

/-- A request body with an empty string, `true` and `false` among its values. -/
def coercedBody : WarBody :=
  { attackStars := .str "", attackPct := .bool true,
    defenseStars := .bool false, defensePct := .num (.fin 50) }

/-- A request body without the property `attackStars`. -/
def absentStarsBody : WarBody :=
  { attackStars := .undefined, attackPct := .num (.fin 0),
    defenseStars := .num (.fin 0), defensePct := .num (.fin 0) }

/-- A request body whose `attackStars` is a string that is no numeric literal. -/
def wordStarsBody : WarBody :=
  { attackStars := .str "abc", attackPct := .num (.fin 0),
    defenseStars := .num (.fin 0), defensePct := .num (.fin 0) }

/-! ## JavaScript arrays and war documents -/

/-- The expression `array[index]` on an array with holes: `none` is `undefined`. -/
def arrayGet {α : Type} (array : List (Option α)) (index : Nat) : Option α :=
  (array.get? index).join

/-- The assignment `array[index] = value`: inside the array the entry is replaced,
beyond its end the array grows and the entries in between are holes. -/
def arraySet {α : Type} (array : List (Option α)) (index : Nat) (value : α) :
    List (Option α) :=
  if index < array.length then array.set index (some value)
  else array ++ List.replicate (index - array.length) none ++ [some value]

/-- A complete war slot as a document. -/
def War.toDoc (war : War) : WarDoc :=
  { attackStars := some war.attackStars, attackPct := some war.attackPct,
    defenseStars := some war.defenseStars, defensePct := some war.defensePct }

/-- The statistic `field` of a complete war slot. -/
def War.get (war : War) : Field → ℚ
  | .attackStars => war.attackStars
  | .attackPct => war.attackPct
  | .defenseStars => war.defenseStars
  | .defensePct => war.defensePct

/-- The object `{}`. -/
def WarDoc.empty : WarDoc :=
  { attackStars := none, attackPct := none, defenseStars := none, defensePct := none }

/-- The object `{ ...war, [field]: value }`. -/
def WarDoc.set (war : WarDoc) (field : Field) (value : ℚ) : WarDoc :=
  match field with
  | .attackStars => { war with attackStars := some value }
  | .attackPct => { war with attackPct := some value }
  | .defenseStars => { war with defenseStars := some value }
  | .defensePct => { war with defensePct := some value }

/-- The four statistics of a complete war slot lie in their closed ranges: stars
from 0 to 3, percentages from 0 to 100. -/
def War.InRange (war : War) : Prop :=
  (0 ≤ war.attackStars ∧ war.attackStars ≤ 3) ∧ (0 ≤ war.attackPct ∧ war.attackPct ≤ 100) ∧
  (0 ≤ war.defenseStars ∧ war.defenseStars ≤ 3) ∧
  (0 ≤ war.defensePct ∧ war.defensePct ≤ 100)

/-- The war-slot invariant of the data model on a `wars` array: exactly
`WAR_COUNT` entries, and every slot, read with missing data as zero, has its four
statistics in range. -/
def WarsValid (wars : List (Option WarDoc)) : Prop :=
  wars.length = WAR_COUNT ∧ ∀ idx, idx < WAR_COUNT → (normalizeWar (arrayGet wars idx)).InRange

/-- The war-slot invariant on a player held by the client. -/
def Player.WarsValid (player : Player) : Prop :=
  ∃ wars, player.wars = some wars ∧ CWL.WarsValid wars

/-! ## Local working state (client) -/

/-- The React state read and written by the dirty-state and batch-save
coordinator of `App.jsx`: `players`, `hasUnsavedChanges` (a key that is not set
reads as `false`), `savingWar`, `savedWar` and `error`; `null` is `none`. -/
structure ClientState where
  players : List Player
  hasUnsavedChanges : Nat → Bool
  savingWar : Option Nat
  savedWar : Option Nat
  error : String

/-- The updater passed to `setPlayers` by `handleWarFieldChange`, on one player. -/
def handleWarFieldChange.update (playerId : String) (warIndex : Nat) (field : Field)
    (value : ℚ) (player : Player) : Player :=
  if player._id ≠ playerId then player
  else
    let wars : List (Option WarDoc) :=
      (List.range WAR_COUNT).map fun idx => some (normalizeWar (player.warAt idx)).toDoc
    let war := ((arrayGet wars warIndex).getD WarDoc.empty).set field value
    let wars := arraySet wars warIndex war
    { player with wars := some wars }

/-- The function `handleWarFieldChange` of `App.jsx`. -/
def handleWarFieldChange (s : ClientState) (playerId : String) (warIndex : Nat)
    (field : Field) (rawValue : JSValue) : ClientState :=
  let value := handleWarFieldChange.value field rawValue
  { s with
    players := s.players.map (handleWarFieldChange.update playerId warIndex field value)
    hasUnsavedChanges := Function.update s.hasUnsavedChanges warIndex true
    savedWar := none }

/-! ## Player collection and routes (server) -/

/-- A document of the player collection, without its `_id`, which is the key
under which the collection holds it. -/
structure PlayerDoc where
  name : String
  clan : String
  wars : List (Option WarDoc)
  deriving DecidableEq

/-- The player collection: at most one document for each `_id`. An `_id` is an
ObjectId, identified with the 24 hexadecimal digits that spell it in JSON and in
the path of a request. -/
abbrev Store := String → Option PlayerDoc

/-- The JSON of a player document, as sent by `res.json(player)`. -/
def PlayerDoc.toJSON (id : String) (doc : PlayerDoc) : Player :=
  { _id := id, name := doc.name, wars := some doc.wars }

/-- The array made by `warsDefault` of `models/Player.js`: seven times `{}`. -/
def warsDefault : List (Option WarDoc) :=
  (List.range 7).map fun _ => some WarDoc.empty

/-- The defaults of `WarSchema`: each absent statistic becomes 0. -/
def WarSchema.applyDefaults (war : WarDoc) : WarDoc :=
  { attackStars := some (war.attackStars.getD 0), attackPct := some (war.attackPct.getD 0),
    defenseStars := some (war.defenseStars.getD 0),
    defensePct := some (war.defensePct.getD 0) }

/-- The document made by `Player.create({ name, clan })`: `wars` takes the default
of `PlayerSchema` and every entry the defaults of `WarSchema`. -/
def PlayerDoc.create (name clan : String) : PlayerDoc :=
  { name := name, clan := clan
    wars := warsDefault.map fun war => war.map WarSchema.applyDefaults }

/-- The answer of a route: `res.json(player)`, `res.json({ ok: true })`, or
`res.status(status).json({ error })`. -/
inductive Response where
  | player (body : Player)
  | ok
  | error (status : Nat) (error : String)
  deriving DecidableEq

/-- The check of the parameter `warIndex` at the head of both war routes:
`Number(req.params.warIndex)` must be an integer with `0 <= warIndex < WAR_COUNT`.
The result is the index, or `none` when the route answers "Invalid war index." -/
def validWarIndex? (param : String) : Option Nat :=
  match Number (.str param) with
  | .fin warIndex =>
    if ¬ warIndex.den = 1 ∨ warIndex < 0 ∨ warIndex ≥ (WAR_COUNT : ℚ) then none
    else some warIndex.num.toNat
  | _ => none

/-- The expression `a || b` on strings: the empty string is falsy. -/
def orElse (a b : String) : String :=
  if a = "" then b else a

/-- Whether Mongoose casts the string to an ObjectId: it must consist of 24
hexadecimal digits. (Releases of the BSON library before version 5 also take any
string of 12 bytes.) -/
def isObjectId (id : String) : Bool :=
  id.length == 24 && id.toList.all fun c => (digit? 16 c).isSome

/-- The message of the `CastError` that a query throws for an `_id` that is no
ObjectId. -/
def castErrorMessage (id : String) : String :=
  "Cast to ObjectId failed for value \"" ++ id ++
    "\" (type string) at path \"_id\" for model \"Player\""

/-- The error-handling middleware of `index.js`, which answers for an error passed
to `next(err)`, for an error without the property `status`, as those of Mongoose:
status `err.status || 500` and message `err.message || "Server error"`. -/
def errorHandler (message : String) : Response :=
  .error 500 (orElse message "Server error")

/-- The query `Player.findOne({ _id: id, clan })`: Mongoose first casts `id` to an
ObjectId and the query throws a `CastError` (`Except.error`, with its message) when
it cannot; otherwise the result is the document of that id if it belongs to the
clan. -/
def findOne (store : Store) (id clan : String) : Except String (Option PlayerDoc) :=
  if isObjectId id then .ok ((store id).filter fun doc => doc.clan = clan)
  else .error (castErrorMessage id)

/-- The route `PUT /:id/war/:warIndex` of `routes/players.js` for the clan of the
caller: the answer and the collection afterwards. The slot assigned is the
result of `parseWarPayload`, which passes the validators of `WarSchema`. An error
thrown by the query goes to the error handler through `next(err)`. -/
def putWar (store : Store) (clan id warIndexParam : String) (body : WarBody) :
    Response × Store :=
  match validWarIndex? warIndexParam with
  | none => (.error 400 "Invalid war index.", store)
  | some warIndex =>
    match parseWarPayload body with
    | .error error => (.error 400 error, store)
    | .ok war =>
      match findOne store id clan with
      | .error message => (errorHandler message, store)
      | .ok none => (.error 404 "Player not found.", store)
      | .ok (some player) =>
        let player := { player with wars := arraySet player.wars warIndex war.toDoc }
        (.player (player.toJSON id), Function.update store id (some player))

/-- The route `POST /reset-war/:warIndex` of `routes/players.js`: one `updateMany`
that sets `wars.<warIndex>` of every player of the clan to the zero record. -/
def resetWar (store : Store) (clan warIndexParam : String) : Response × Store :=
  match validWarIndex? warIndexParam with
  | none => (.error 400 "Invalid war index.", store)
  | some warIndex =>
    (.ok, fun id => (store id).map fun doc =>
      if doc.clan = clan then
        { doc with
          wars := arraySet doc.wars warIndex
            { attackStars := some 0, attackPct := some 0, defenseStars := some 0,
              defensePct := some 0 } }
      else doc)

/-- The route `DELETE /:id` of `routes/players.js`:
`Player.findOneAndDelete({ _id: id, clan })`, which casts `id` as `findOne` does. -/
def deletePlayer (store : Store) (clan id : String) : Response × Store :=
  match findOne store id clan with
  | .error message => (errorHandler message, store)
  | .ok none => (.error 404 "Player not found.", store)
  | .ok (some _) => (.ok, Function.update store id none)

/-- The war-slot invariant on every document of the collection. -/
def StoreValid (store : Store) : Prop :=
  ∀ id doc, store id = some doc → WarsValid doc.wars

/-! ## Batch save (client) -/

/-- What happens to one request of a fan-out between `authFetch` and the route.

* `up`: the request reaches the route and the answer of the route reaches the
  client;
* `unauthorized`: the request is answered with status 401 before the route;
* `down message`: the request meets no route (network failure or an error answer
  of the server before the route): the collection is untouched and `updateWar`
  throws an error with this message;
* `lost message`: the route runs, but its answer does not reach the client and
  `updateWar` throws an error with this message. -/
inductive Link where
  | up
  | unauthorized
  | down (message : String)
  | lost (message : String)
  deriving DecidableEq

/-- The outcome of one call of `updateWar`: the payload returned or the message of
the error thrown, whether `authFetch` called `handleLogout`, and the collection
afterwards. -/
structure Reply where
  result : Except String Player
  loggedOut : Bool
  store : Store

/-- The body `JSON.stringify(war)` as read by the route. -/
def War.toBody (war : War) : WarBody :=
  { attackStars := .num (.fin war.attackStars), attackPct := .num (.fin war.attackPct),
    defenseStars := .num (.fin war.defenseStars), defensePct := .num (.fin war.defensePct) }

/-- The function `updateWar` of `App.jsx` (with `authFetch`), against the route
`PUT /api/players/${playerId}/war/${warIndex}` for the clan of the session. An
answer with `res.ok` carries the payload; the route has no other such answer than
the player. -/
def updateWar (store : Store) (clan : String) (link : Link) (playerId : String)
    (warIndex : Nat) (war : War) : Reply :=
  match link with
  | .unauthorized =>
    { result := .error "Session expired. Please log in again.", loggedOut := true,
      store := store }
  | .down message => { result := .error message, loggedOut := false, store := store }
  | .lost message =>
    { result := .error message, loggedOut := false
      store := (putWar store clan playerId (toString warIndex) war.toBody).2 }
  | .up =>
    match putWar store clan playerId (toString warIndex) war.toBody with
    | (.player payload, store) => { result := .ok payload, loggedOut := false, store := store }
    | (.ok, store) =>
      { result := .error "Failed to update war data", loggedOut := false, store := store }
    | (.error _ error, store) =>
      { result := .error (orElse error "Failed to update war data"), loggedOut := false,
        store := store }

/-- The fan-out of `saveAllWarData`: one `updateWar` for each player of the
working set, carrying `normalizeWar(player.wars?.[warIndex])`. The request of the
player at position `k` of the whole working set travels over `links k`. The
result is the list of outcomes in the order of the players, whether a logout
happened, and the collection afterwards. -/
def sendAll (clan : String) (warIndex : Nat) (links : Nat → Link) :
    Nat → List Player → Store → List (Except String Player) × Bool × Store
  | _, [], store => ([], false, store)
  | k, player :: rest, store =>
    let war := normalizeWar (player.warAt warIndex)
    let reply := updateWar store clan (links k) player._id warIndex war
    let others := sendAll clan warIndex links (k + 1) rest reply.store
    (reply.result :: others.1, reply.loggedOut || others.2.1, others.2.2)

/-- The call of `updateWar` returned a payload. -/
def succeeded : Except String Player → Bool
  | .ok _ => true
  | .error _ => false

/-- The outcome of `Promise.all`: all the payloads, or the first error. -/
def promiseAll : List (Except String Player) → Except String (List Player)
  | [] => .ok []
  | .error message :: _ => .error message
  | .ok payload :: rest =>
    match promiseAll rest with
    | .ok payloads => .ok (payload :: payloads)
    | .error message => .error message

/-- The function `handleLogout` of `App.jsx`, on the state of the coordinator:
`setPlayers([])`. -/
def handleLogout (s : ClientState) : ClientState :=
  { s with players := [] }

/-- The head of `saveAllWarData`, before the requests are sent:
`setSavingWar(warIndex); setError(""); setSavedWar(null)`. -/
def saveAllWarData.begin (s : ClientState) (warIndex : Nat) : ClientState :=
  { s with savingWar := some warIndex, error := "", savedWar := none }

/-- The rest of `saveAllWarData`: the fan-out over the players captured when the
save was started, and what runs once every request is settled, on the state `s`
of that moment. The timer that clears `savedWar` three seconds later is not part
of it. -/
def saveAllWarData.settle (clan : String) (links : Nat → Link) (s : ClientState)
    (players : List Player) (store : Store) (warIndex : Nat) : ClientState × Store :=
  let sent := sendAll clan warIndex links 0 players store
  let s := if sent.2.1 then handleLogout s else s
  match promiseAll sent.1 with
  | .ok results =>
    ({ s with
        players := s.players.map fun player =>
          ((results.find? fun r => r._id == player._id).getD player)
        hasUnsavedChanges := Function.update s.hasUnsavedChanges warIndex false
        savedWar := some warIndex
        savingWar := none },
      sent.2.2)
  | .error message =>
    ({ s with error := orElse message "Unable to save war data", savingWar := none },
      sent.2.2)

/-- The function `saveAllWarData` of `App.jsx`, run without another event in
between: the collection is the one of the server for the clan of the session. -/
def saveAllWarData (clan : String) (links : Nat → Link) (s : ClientState) (store : Store)
    (warIndex : Nat) : ClientState × Store :=
  saveAllWarData.settle clan links (saveAllWarData.begin s warIndex) s.players store warIndex

/-- The attribute `disabled` of the save button of war `idx`:
`savingWar === idx || players.length === 0`. -/
def saveDisabled (s : ClientState) (idx : Nat) : Bool :=
  s.savingWar == some idx || s.players.length == 0

/-- The coordinator between events: the state of the client, the collection of
the server, and the saves that were started and are not settled yet, each with
its war index and the players it captured. -/
structure Coordinator where
  client : ClientState
  store : Store
  outstanding : List (Nat × List Player)

/-- An event of the coordinator: an edit of a cell, a click on an enabled save
button, or the settling of the oldest outstanding save of a war index. -/
inductive Event where
  | edit (playerId : String) (warIndex : Nat) (field : Field) (rawValue : JSValue)
  | clickSave (warIndex : Nat)
  | settle (warIndex : Nat) (links : Nat → Link)

/-- One event of the coordinator; `none` when the event cannot happen (the save
button is disabled, or no save of that war index is outstanding). -/
def Coordinator.step (clan : String) (c : Coordinator) : Event → Option Coordinator
  | .edit playerId warIndex field rawValue =>
    some { c with client := handleWarFieldChange c.client playerId warIndex field rawValue }
  | .clickSave warIndex =>
    if saveDisabled c.client warIndex then none
    else
      some { c with
        client := saveAllWarData.begin c.client warIndex
        outstanding := c.outstanding ++ [(warIndex, c.client.players)] }
  | .settle warIndex links =>
    match c.outstanding.find? fun o => o.1 == warIndex with
    | none => none
    | some o =>
      let done := saveAllWarData.settle clan links c.client o.2 c.store warIndex
      some { client := done.1, store := done.2
             outstanding := c.outstanding.eraseP fun o => o.1 == warIndex }

/-- A run of events from a state of the coordinator. -/
def Coordinator.run (clan : String) : Coordinator → List Event → Option Coordinator
  | c, [] => some c
  | c, e :: es => (c.step clan e).bind fun c => Coordinator.run clan c es

/-- A save of war `idx` is outstanding. -/
def Coordinator.saving (c : Coordinator) (idx : Nat) : Bool :=
  c.outstanding.any fun o => o.1 == idx

/-! ## Example data (coordinator) -/

/-- The `_id` of the player Ann of `demoStore`. -/
def annId : String := "65f1a2b3c4d5e6f708192a01"

/-- The `_id` of the player Bob of `demoStore`. -/
def bobId : String := "65f1a2b3c4d5e6f708192a02"

/-- The `_id` of the player Eve of `demoStore`. -/
def eveId : String := "65f1a2b3c4d5e6f708192b01"

/-- A collection with two players of clan `c1`, Ann and Bob, and one of clan `c2`,
Eve, all as newly created. -/
def demoStore : Store := fun id =>
  if id = annId then some (PlayerDoc.create "Ann" "c1")
  else if id = bobId then some (PlayerDoc.create "Bob" "c1")
  else if id = eveId then some (PlayerDoc.create "Eve" "c2")
  else none

/-- The client of the owner of clan `c1` after loading the players of
`demoStore`: nothing edited, nothing being saved. -/
def demoClient : ClientState :=
  { players :=
      [(PlayerDoc.create "Ann" "c1").toJSON annId, (PlayerDoc.create "Bob" "c1").toJSON bobId]
    hasUnsavedChanges := fun _ => false
    savingWar := none, savedWar := none, error := "" }

/-- The coordinator of clan `c1` at rest on `demoClient` and `demoStore`. -/
def demoCoordinator : Coordinator :=
  { client := demoClient, store := demoStore, outstanding := [] }

/-- A fan-out in which every request reaches its route and every answer the
client. -/
def allUp : Nat → Link := fun _ => .up

/-- A fan-out in which every request is answered with status 401. -/
def allUnauthorized : Nat → Link := fun _ => .unauthorized

/-- A fan-out in which only the first request gets through. -/
def firstUp : Nat → Link := fun k => if k = 0 then .up else .down "Failed to fetch"

/-! ## Requests of a batch save (client) -/

/-- The request made by `updateWar`: `PUT /api/players/${playerId}/war/${warIndex}`
with the body `JSON.stringify(war)`. -/
structure UpdateRequest where
  playerId : String
  warIndexParam : String
  body : WarBody
  deriving DecidableEq

/-- The request made by the call `updateWar(playerId, warIndex, war)`. -/
def updateWar.request (playerId : String) (warIndex : Nat) (war : War) : UpdateRequest :=
  { playerId := playerId, warIndexParam := toString warIndex, body := war.toBody }

/-- The requests made by `saveAllWarData(warIndex)`: the `players.map` over the
working set. -/
def saveAllWarData.requests (players : List Player) (warIndex : Nat) : List UpdateRequest :=
  players.map fun player =>
    updateWar.request player._id warIndex (normalizeWar (player.warAt warIndex))

/-- What `updateWar` does with its request: the request travels over the link to
the route, and the answer back. -/
def deliver (store : Store) (clan : String) (link : Link) (request : UpdateRequest) : Reply :=
  match link with
  | .unauthorized =>
    { result := .error "Session expired. Please log in again.", loggedOut := true,
      store := store }
  | .down message => { result := .error message, loggedOut := false, store := store }
  | .lost message =>
    { result := .error message, loggedOut := false
      store := (putWar store clan request.playerId request.warIndexParam request.body).2 }
  | .up =>
    match putWar store clan request.playerId request.warIndexParam request.body with
    | (.player payload, store) => { result := .ok payload, loggedOut := false, store := store }
    | (.ok, store) =>
      { result := .error "Failed to update war data", loggedOut := false, store := store }
    | (.error _ error, store) =>
      { result := .error (orElse error "Failed to update war data"), loggedOut := false,
        store := store }

/-- A list of requests served one after the other, the request at position `k`
travelling over `links k`. -/
def deliverAll (clan : String) (links : Nat → Link) :
    Nat → List UpdateRequest → Store → List (Except String Player) × Bool × Store
  | _, [], store => ([], false, store)
  | k, request :: rest, store =>
    let reply := deliver store clan (links k) request
    let others := deliverAll clan links (k + 1) rest reply.store
    (reply.result :: others.1, reply.loggedOut || others.2.1, others.2.2)

/-! ## CSV export (client) -/

/-- The digits after the decimal point of `rem / den`, at most `fuel` of them. -/
def fractionDigits (den : Nat) : Nat → Nat → List Char
  | 0, _ => []
  | fuel + 1, rem =>
    if rem = 0 then []
    else Nat.digitChar (rem * 10 / den) :: fractionDigits den fuel (rem * 10 % den)

/-- ECMAScript `Number::toString` of a finite number in decimal notation: the
sign, the integer part and, for a fraction, the point and the digits of the exact
decimal expansion. (JavaScript stops at the last digit needed to tell the double
from its neighbours, and switches to exponent notation from `1e21` on and below
`1e-6`.) -/
def numberToString (q : ℚ) : String :=
  let n := q.num.natAbs
  let body := (Nat.toDigits 10 (n / q.den)) ++
    (if n % q.den = 0 then [] else '.' :: fractionDigits q.den q.den (n % q.den))
  String.mk ((if q < 0 then ['-'] else []) ++ body)

/-- The method `Array.prototype.join(separator)` on an array of strings. -/
def join : List String → String → String
  | [], _ => ""
  | [a], _ => a
  | a :: b :: rest, separator => a ++ separator ++ join (b :: rest) separator

/-- The text `csv` built by `exportCSV` of `App.jsx` from `adminLeaderboard`;
`join` turns the rank and the two numbers of a row into strings. -/
def exportCSV (adminLeaderboard : List RankedRow) : String :=
  let headers := ["Rank", "Player", "Total Net Stars", "Total Net %"]
  let rows := adminLeaderboard.map fun row =>
    [toString row.rank, row.name, numberToString row.netStars, numberToString row.netPct]
  join ((headers :: rows).map fun row => join row ",") "\n"

/-- The line of the CSV text for a row: rank, name, net stars and net percentage
with commas in between. -/
def csvLine (row : RankedRow) : String :=
  toString row.rank ++ "," ++ row.name ++ "," ++ numberToString row.netStars ++ "," ++
    numberToString row.netPct

/-- The number of lines of a text: one more than its newline characters. -/
def lineCount (text : String) : Nat :=
  text.toList.count '\n' + 1

/-- A player whose name contains a newline. -/
def twoLineName : Player := { _id := "n1", name := "Al\nBo", wars := none }

/-! ## Aggregation -/

/-! ### Doubles -/

/-- The halving count is at most `k` on a number below `2 ^ (k + 1)`. -/
theorem log2Go_le (fuel : Nat) : ∀ n k : Nat, n < 2 ^ (k + 1) → log2Go fuel n ≤ k := by
  induction fuel with
  | zero => intro n k _; simp [log2Go]
  | succ fuel ih =>
    intro n k h
    simp only [log2Go]
    split_ifs with h2
    · cases k with
      | zero => simp at h; omega
      | succ k =>
        have h3 : n / 2 < 2 ^ (k + 1) := by
          rw [pow_succ] at h
          omega
        have := ih (n / 2) k h3
        omega
    · omega

/-- Rounding a quotient by `1` gives the numerator. -/
theorem roundHalfEven_one (n : Nat) : roundHalfEven n 1 = n := by
  simp [roundHalfEven, Nat.mod_one]

/-- The binary exponent of a natural number below `2 ^ 53` is at most `52`. -/
theorem floorLog2_one_le (n : Nat) (h : n < 2 ^ 53) : floorLog2 n 1 ≤ 52 := by
  have h1 : log2 n ≤ 52 := log2Go_le n n 52 h
  have h2 : log2 1 = 0 := by decide
  simp only [floorLog2, h2]
  split_ifs <;> omega

/-- An integer of magnitude below `2 ^ 53` is a double: rounding leaves it as it
is. -/
theorem roundDouble_of_integer (q : ℚ) (bound : Nat) (hq : IntegerUpTo bound q)
    (hb : bound < 2 ^ 53) : roundDouble q = q := by
  obtain ⟨hd, hn⟩ := hq
  unfold roundDouble
  by_cases h0 : q = 0
  · simp [h0]
  · simp only [h0, if_false, hd, one_mul, mul_one]
    have hfl := floorLog2_one_le q.num.natAbs (lt_of_le_of_lt hn hb)
    have hk : max (floorLog2 q.num.natAbs 1) (-1022) - 52 ≤ 0 := by
      have := max_le hfl (by norm_num : (-1022 : ℤ) ≤ 52)
      omega
    generalize max (floorLog2 q.num.natAbs 1) (-1022) - 52 = k at hk
    have hq : q = (q.num : ℚ) := (Rat.coe_int_num_of_den_eq_one hd).symm
    have habs : ((q.num.natAbs : ℕ) : ℚ) = |q| := by
      rw [Nat.cast_natAbs, Int.cast_abs, ← hq]
    have hr : ((if 0 ≤ k then roundHalfEven q.num.natAbs (2 ^ k.toNat)
        else roundHalfEven (q.num.natAbs * 2 ^ (-k).toNat) 1 : ℕ) : ℚ) * (2 : ℚ) ^ k = |q| := by
      by_cases hk0 : 0 ≤ k
      · have : k = 0 := le_antisymm hk hk0
        subst this
        simp [roundHalfEven_one, habs]
      · rw [if_neg hk0, roundHalfEven_one]
        obtain ⟨j, rfl⟩ : ∃ j : ℕ, k = -(j : ℤ) := ⟨(-k).toNat, by omega⟩
        simp only [neg_neg, Int.toNat_ofNat, Nat.cast_mul, Nat.cast_pow, Nat.cast_ofNat,
          zpow_neg, zpow_natCast, habs]
        field_simp
    rw [hr]
    split_ifs with hneg
    · rw [abs_of_neg hneg, neg_neg]
    · exact abs_of_nonneg (not_lt.1 hneg)

/-- Rounding on some values: `0.1`, `0.2` and `1/3`; the two ties next to `2 ^ 53`,
which go to the even significand; the smallest subnormal `2 ^ (-1074)`, half of it,
which is a tie and goes to zero, and three halves of it, which go up. -/
theorem roundDouble_examples :
    roundDouble (1 / 10) = tenth ∧ roundDouble (2 / 10) = fifth ∧
    roundDouble (1 / 3) = 6004799503160661 / 18014398509481984 ∧
    roundDouble (2 ^ 53 + 1) = 2 ^ 53 ∧ roundDouble (2 ^ 53 + 3) = 2 ^ 53 + 4 ∧
    roundDouble (1 / 2 ^ 1074) = 1 / 2 ^ 1074 ∧ roundDouble (1 / 2 ^ 1075) = 0 ∧
    roundDouble (3 / 2 ^ 1075) = 1 / 2 ^ 1073 :=
  ⟨by decide!, by decide!, by decide!, by decide!, by decide!, by decide!, by decide!,
    by decide!⟩

/-- Zero is an integer within any bound. -/
theorem integerUpTo_zero (bound : Nat) : IntegerUpTo bound 0 := by
  simp [IntegerUpTo]

/-- A number is an integer within a bound exactly when it is the cast of an integer
of that magnitude. -/
theorem integerUpTo_iff (bound : Nat) (q : ℚ) :
    IntegerUpTo bound q ↔ ∃ n : ℤ, q = n ∧ n.natAbs ≤ bound := by
  constructor
  · rintro ⟨hd, hn⟩
    exact ⟨q.num, (Rat.coe_int_num_of_den_eq_one hd).symm, hn⟩
  · rintro ⟨n, rfl, hn⟩
    exact ⟨Rat.den_intCast n, by rw [Rat.num_intCast]; exact hn⟩

/-- The exact sum of two bounded integers is an integer within the sum of the
bounds. -/
theorem integerUpTo_add (A B : Nat) (a b : ℚ) (ha : IntegerUpTo A a) (hb : IntegerUpTo B b) :
    IntegerUpTo (A + B) (a + b) := by
  rw [integerUpTo_iff] at ha hb ⊢
  obtain ⟨m, rfl, hm⟩ := ha
  obtain ⟨n, rfl, hn⟩ := hb
  exact ⟨m + n, by push_cast; rfl, by omega⟩

/-- The exact difference of two bounded integers is an integer within the sum of
the bounds. -/
theorem integerUpTo_sub (A B : Nat) (a b : ℚ) (ha : IntegerUpTo A a) (hb : IntegerUpTo B b) :
    IntegerUpTo (A + B) (a - b) := by
  rw [integerUpTo_iff] at ha hb ⊢
  obtain ⟨m, rfl, hm⟩ := ha
  obtain ⟨n, rfl, hn⟩ := hb
  exact ⟨m - n, by push_cast; rfl, by omega⟩

/-- The addition of doubles is exact on integers whose bounds add up to less than
`2 ^ 53`. -/
theorem addDouble_of_integer (A B : Nat) (a b : ℚ) (ha : IntegerUpTo A a)
    (hb : IntegerUpTo B b) (h : A + B < 2 ^ 53) : addDouble a b = a + b :=
  roundDouble_of_integer _ _ (integerUpTo_add A B a b ha hb) h

/-- The subtraction of doubles is exact on integers whose bounds add up to less
than `2 ^ 53`. -/
theorem subDouble_of_integer (A B : Nat) (a b : ℚ) (ha : IntegerUpTo A a)
    (hb : IntegerUpTo B b) (h : A + B < 2 ^ 53) : subDouble a b = a - b :=
  roundDouble_of_integer _ _ (integerUpTo_sub A B a b ha hb) h

/-- Accumulating bounded integers with the addition of doubles gives the exact sum,
as long as the bounds add up to less than `2 ^ 53`. -/
theorem foldl_addDouble_of_integer (B : Nat) : ∀ (values : List ℚ) (A : Nat) (acc : ℚ),
    IntegerUpTo A acc → (∀ v ∈ values, IntegerUpTo B v) → A + values.length * B < 2 ^ 53 →
    values.foldl addDouble acc = acc + values.sum
  | [], _, acc, _, _, _ => by simp
  | v :: values, A, acc, hacc, hvalues, hbound => by
    have hv := hvalues v (List.mem_cons_self _ _)
    have hlen : A + B + values.length * B = A + (v :: values).length * B := by
      simp only [List.length_cons]
      ring
    have hAB : A + B < 2 ^ 53 := by
      have : A + B ≤ A + B + values.length * B := Nat.le_add_right _ _
      omega
    rw [List.foldl_cons, addDouble_of_integer A B acc v hacc hv hAB,
      foldl_addDouble_of_integer B values (A + B) (acc + v) (integerUpTo_add A B acc v hacc hv)
        (fun w hw => hvalues w (List.mem_cons_of_mem _ hw)) (by omega),
      List.sum_cons, add_assoc]

/-- The left-to-right sum of doubles is the exact sum on a list of bounded integers
whose bounds add up to less than `2 ^ 53`. -/
theorem sumDouble_of_integer (B : Nat) (values : List ℚ)
    (hvalues : ∀ v ∈ values, IntegerUpTo B v) (hbound : values.length * B < 2 ^ 53) :
    sumDouble values = values.sum := by
  unfold sumDouble
  rw [foldl_addDouble_of_integer B values 0 0 (integerUpTo_zero 0) hvalues (by omega), zero_add]

/-- The sum of a function over the list `0, ..., 6` written as a sum over the
range. -/
theorem sum_map_range_seven (f : Nat → ℚ) :
    ((List.range 7).map f).sum = ∑ i in Finset.range 7, f i := by
  simp only [List.range, List.range.loop, List.map, List.sum_cons, List.sum_nil,
    Finset.sum_range_succ, Finset.sum_range_zero]
  ring

/-! ### Totals -/

/-- Unfolding of `computeTotals` into left-to-right sums of doubles over the seven
slots. -/
theorem computeTotals_eq (player : Player) :
    computeTotals player =
      { attackStars :=
          sumDouble ((List.range 7).map fun i => (normalizeWar (player.warAt i)).attackStars)
        attackPct :=
          sumDouble ((List.range 7).map fun i => (normalizeWar (player.warAt i)).attackPct)
        defenseStars :=
          sumDouble ((List.range 7).map fun i => (normalizeWar (player.warAt i)).defenseStars)
        defensePct :=
          sumDouble ((List.range 7).map fun i => (normalizeWar (player.warAt i)).defensePct)
        netStars :=
          sumDouble ((List.range 7).map fun i =>
            subDouble (normalizeWar (player.warAt i)).attackStars
              (normalizeWar (player.warAt i)).defenseStars)
        netPct :=
          sumDouble ((List.range 7).map fun i =>
            subDouble (normalizeWar (player.warAt i)).attackPct
              (normalizeWar (player.warAt i)).defensePct) } := by
  simp only [computeTotals, sumDouble, WAR_COUNT, List.range, List.range.loop, List.map,
    List.foldl]

/-- A normalized slot holds, for each statistic, the value read with missing data
counted as zero. -/
theorem normalizeWar_warAt (player : Player) (i : Nat) :
    (normalizeWar (player.warAt i)).attackStars = slotValueOrZero player i .attackStars ∧
    (normalizeWar (player.warAt i)).attackPct = slotValueOrZero player i .attackPct ∧
    (normalizeWar (player.warAt i)).defenseStars = slotValueOrZero player i .defenseStars ∧
    (normalizeWar (player.warAt i)).defensePct = slotValueOrZero player i .defensePct := by
  unfold Player.warAt slotValueOrZero
  cases player.wars with
  | none => simp [normalizeWar, DEFAULT_WAR]
  | some ws =>
    simp only []
    cases ws.get? i with
    | none => simp [normalizeWar, DEFAULT_WAR]
    | some o =>
      cases o with
      | none => simp [normalizeWar, DEFAULT_WAR]
      | some w => simp [normalizeWar, DEFAULT_WAR]

/-- The totals of `computeTotals` in terms of the statistics read with missing data
counted as zero. -/
theorem computeTotals_slots (player : Player) :
    computeTotals player =
      { attackStars :=
          sumDouble ((List.range 7).map fun i => slotValueOrZero player i .attackStars)
        attackPct :=
          sumDouble ((List.range 7).map fun i => slotValueOrZero player i .attackPct)
        defenseStars :=
          sumDouble ((List.range 7).map fun i => slotValueOrZero player i .defenseStars)
        defensePct :=
          sumDouble ((List.range 7).map fun i => slotValueOrZero player i .defensePct)
        netStars :=
          sumDouble ((List.range 7).map fun i =>
            subDouble (slotValueOrZero player i .attackStars)
              (slotValueOrZero player i .defenseStars))
        netPct :=
          sumDouble ((List.range 7).map fun i =>
            subDouble (slotValueOrZero player i .attackPct)
              (slotValueOrZero player i .defensePct)) } := by
  rw [computeTotals_eq]
  simp only [fun i => (normalizeWar_warAt player i).1, fun i => (normalizeWar_warAt player i).2.1,
    fun i => (normalizeWar_warAt player i).2.2.1, fun i => (normalizeWar_warAt player i).2.2.2]

/-- On a player whose statistics are integers of magnitude at most `2 ^ 49`, the
totals of `computeTotals` are the exact sums over the slots 0..6. -/
theorem computeTotals_of_integer (player : Player) (h : player.IntegerStats) :
    computeTotals player =
      { attackStars := ∑ i in Finset.range 7, slotValueOrZero player i .attackStars
        attackPct := ∑ i in Finset.range 7, slotValueOrZero player i .attackPct
        defenseStars := ∑ i in Finset.range 7, slotValueOrZero player i .defenseStars
        defensePct := ∑ i in Finset.range 7, slotValueOrZero player i .defensePct
        netStars := ∑ i in Finset.range 7,
          (slotValueOrZero player i .attackStars - slotValueOrZero player i .defenseStars)
        netPct := ∑ i in Finset.range 7,
          (slotValueOrZero player i .attackPct - slotValueOrZero player i .defensePct) } := by
  have hf : ∀ f : Field, ∀ v ∈ (List.range 7).map (fun i => slotValueOrZero player i f),
      IntegerUpTo (2 ^ 49) v := by
    intro f v hv
    obtain ⟨i, hi, rfl⟩ := List.mem_map.1 hv
    refine h i (List.mem_range.1 hi) f ?_
    cases f <;> simp
  have hsum : ∀ f : Field,
      sumDouble ((List.range 7).map fun i => slotValueOrZero player i f) =
        ∑ i in Finset.range 7, slotValueOrZero player i f := by
    intro f
    rw [sumDouble_of_integer (2 ^ 49) _ (hf f) (by simp), sum_map_range_seven]
  have hsub : ∀ f g : Field, ∀ i < 7,
      subDouble (slotValueOrZero player i f) (slotValueOrZero player i g) =
        slotValueOrZero player i f - slotValueOrZero player i g ∧
      IntegerUpTo (2 ^ 50) (slotValueOrZero player i f - slotValueOrZero player i g) := by
    intro f g i hi
    have h1 := h i hi f (by cases f <;> simp)
    have h2 := h i hi g (by cases g <;> simp)
    exact ⟨subDouble_of_integer _ _ _ _ h1 h2 (by norm_num),
      integerUpTo_sub _ _ _ _ h1 h2⟩
  have hnet : ∀ f g : Field,
      sumDouble ((List.range 7).map fun i =>
          subDouble (slotValueOrZero player i f) (slotValueOrZero player i g)) =
        ∑ i in Finset.range 7, (slotValueOrZero player i f - slotValueOrZero player i g) := by
    intro f g
    have hmap : ((List.range 7).map fun i =>
          subDouble (slotValueOrZero player i f) (slotValueOrZero player i g)) =
        (List.range 7).map fun i => slotValueOrZero player i f - slotValueOrZero player i g :=
      List.map_congr_left fun i hi => (hsub f g i (List.mem_range.1 hi)).1
    rw [hmap, sumDouble_of_integer (2 ^ 50) _ ?_ (by simp), sum_map_range_seven]
    intro v hv
    obtain ⟨i, hi, rfl⟩ := List.mem_map.1 hv
    exact (hsub f g i (List.mem_range.1 hi)).2
  rw [computeTotals_slots, hsum, hsum, hsum, hsum, hnet, hnet]

/-- C1, as stated, fails: the totals are sums of doubles. The literals `0.1` and
`0.2` denote the doubles `tenth` and `fifth`, an edit of a stars field stores them
unchanged, and for the player with `defenseStars` `0.1` and `0.2` the total
`defenseStars` is `0.30000000000000004`, not the sum of the two statistics. -/
theorem computeTotals_sum_rounded :
    Number (.str "0.1") = .fin tenth ∧
    Number (.str "0.2") = .fin fifth ∧
    handleWarFieldChange.value .defenseStars (.str "0.1") = tenth ∧
    handleWarFieldChange.value .defenseStars (.str "0.2") = fifth ∧
    (computeTotals fractionPlayer).defenseStars = 5404319552844596 / 18014398509481984 ∧
    ∑ i in Finset.range 7, slotValueOrZero fractionPlayer i .defenseStars =
      10808639105689191 / 36028797018963968 ∧
    (computeTotals fractionPlayer).defenseStars ≠
      ∑ i in Finset.range 7, slotValueOrZero fractionPlayer i .defenseStars := by
  have hsum : ∑ i in Finset.range 7, slotValueOrZero fractionPlayer i .defenseStars =
      10808639105689191 / 36028797018963968 := by
    rw [← sum_map_range_seven]
    decide!
  have htotal : (computeTotals fractionPlayer).defenseStars =
      5404319552844596 / 18014398509481984 := by decide!
  refine ⟨by decide!, by decide!, by decide!, by decide!, htotal, hsum, ?_⟩
  rw [hsum, htotal]
  decide!

/-- C1, amended: for every player, also one whose `wars` array is absent, shorter
than seven, or has slots with missing properties, each of the four totals of
`computeTotals` is the sum of doubles of that statistic over the slots 0..6, added
from zero in slot order with every addition rounded, and `netStars` and `netPct`
are such sums of the rounded per-slot differences, missing data counting as zero.
When every statistic is an integer of magnitude at most `2 ^ 49`, the six totals
are the exact sums of the claim. -/
theorem computeTotals_double_sums (player : Player) :
    ((computeTotals player).attackStars =
        sumDouble ((List.range 7).map fun i => slotValueOrZero player i .attackStars) ∧
      (computeTotals player).attackPct =
        sumDouble ((List.range 7).map fun i => slotValueOrZero player i .attackPct) ∧
      (computeTotals player).defenseStars =
        sumDouble ((List.range 7).map fun i => slotValueOrZero player i .defenseStars) ∧
      (computeTotals player).defensePct =
        sumDouble ((List.range 7).map fun i => slotValueOrZero player i .defensePct) ∧
      (computeTotals player).netStars =
        sumDouble ((List.range 7).map fun i =>
          subDouble (slotValueOrZero player i .attackStars)
            (slotValueOrZero player i .defenseStars)) ∧
      (computeTotals player).netPct =
        sumDouble ((List.range 7).map fun i =>
          subDouble (slotValueOrZero player i .attackPct)
            (slotValueOrZero player i .defensePct))) ∧
    (player.IntegerStats →
      (computeTotals player).attackStars =
          ∑ i in Finset.range 7, slotValueOrZero player i .attackStars ∧
      (computeTotals player).attackPct =
          ∑ i in Finset.range 7, slotValueOrZero player i .attackPct ∧
      (computeTotals player).defenseStars =
          ∑ i in Finset.range 7, slotValueOrZero player i .defenseStars ∧
      (computeTotals player).defensePct =
          ∑ i in Finset.range 7, slotValueOrZero player i .defensePct ∧
      (computeTotals player).netStars =
          ∑ i in Finset.range 7,
            (slotValueOrZero player i .attackStars - slotValueOrZero player i .defenseStars) ∧
      (computeTotals player).netPct =
          ∑ i in Finset.range 7,
            (slotValueOrZero player i .attackPct - slotValueOrZero player i .defensePct)) := by
  constructor
  · rw [computeTotals_slots]
    exact ⟨rfl, rfl, rfl, rfl, rfl, rfl⟩
  · intro h
    rw [computeTotals_of_integer player h]
    exact ⟨rfl, rfl, rfl, rfl, rfl, rfl⟩

/-- Witness of the amended C1: player `A` of the ranking scenario has integer
statistics, and its totals are the exact sums. -/
theorem computeTotals_double_sums_witness :
    scenarioA.IntegerStats ∧
    (computeTotals scenarioA).attackStars =
        ∑ i in Finset.range 7, slotValueOrZero scenarioA i .attackStars ∧
    (computeTotals scenarioA).attackPct =
        ∑ i in Finset.range 7, slotValueOrZero scenarioA i .attackPct ∧
    (computeTotals scenarioA).defenseStars =
        ∑ i in Finset.range 7, slotValueOrZero scenarioA i .defenseStars ∧
    (computeTotals scenarioA).defensePct =
        ∑ i in Finset.range 7, slotValueOrZero scenarioA i .defensePct ∧
    (computeTotals scenarioA).netStars =
        ∑ i in Finset.range 7,
          (slotValueOrZero scenarioA i .attackStars - slotValueOrZero scenarioA i .defenseStars) ∧
    (computeTotals scenarioA).netPct =
        ∑ i in Finset.range 7,
          (slotValueOrZero scenarioA i .attackPct - slotValueOrZero scenarioA i .defensePct) :=
  ⟨by decide!, (computeTotals_double_sums scenarioA).2 (by decide!)⟩

/-- C2, as stated, fails: for the player with stars `0.1`/`0.1` and `0.1`/`0.2`
the total `netStars` is `-0.1`, the total `attackStars` is `0.2` and the total
`defenseStars` is `0.30000000000000004`, so `netStars` differs from
`attackStars - defenseStars`, which is `-0.10000000000000003`, whether the last
subtraction is exact or the one of doubles. -/
theorem computeTotals_net_not_linear :
    (computeTotals fractionPlayer).netStars = -tenth ∧
    (computeTotals fractionPlayer).attackStars = fifth ∧
    (computeTotals fractionPlayer).defenseStars = 5404319552844596 / 18014398509481984 ∧
    (computeTotals fractionPlayer).attackStars - (computeTotals fractionPlayer).defenseStars =
      -(1801439850948199 / 18014398509481984) ∧
    (computeTotals fractionPlayer).netStars ≠
      (computeTotals fractionPlayer).attackStars - (computeTotals fractionPlayer).defenseStars ∧
    (computeTotals fractionPlayer).netStars ≠
      subDouble (computeTotals fractionPlayer).attackStars
        (computeTotals fractionPlayer).defenseStars := by
  have h : computeTotals fractionPlayer =
      { attackStars := fifth, attackPct := 0,
        defenseStars := 5404319552844596 / 18014398509481984, defensePct := 0,
        netStars := -tenth, netPct := 0 } := by decide!
  rw [h]
  exact ⟨rfl, rfl, rfl, by decide!, by decide!, by decide!⟩

/-- C2, amended: for every player whose statistics are integers of magnitude at
most `2 ^ 49`, the totals of `computeTotals` satisfy
`netStars = attackStars - defenseStars` and `netPct = attackPct - defensePct`, the
subtraction being the one of doubles, which is exact here: the sum of the per-slot
differences equals the difference of the sums. -/
theorem computeTotals_net_linear_of_integer (player : Player) (h : player.IntegerStats) :
    (computeTotals player).netStars =
        subDouble (computeTotals player).attackStars (computeTotals player).defenseStars ∧
    (computeTotals player).netPct =
        subDouble (computeTotals player).attackPct (computeTotals player).defensePct ∧
    (computeTotals player).netStars =
        (computeTotals player).attackStars - (computeTotals player).defenseStars ∧
    (computeTotals player).netPct =
        (computeTotals player).attackPct - (computeTotals player).defensePct := by
  have hint : ∀ f : Field, IntegerUpTo (7 * 2 ^ 49)
      (∑ i in Finset.range 7, slotValueOrZero player i f) := by
    intro f
    have hf : ∀ i < 7, IntegerUpTo (2 ^ 49) (slotValueOrZero player i f) :=
      fun i hi => h i hi f (by cases f <;> simp)
    simp only [Finset.sum_range_succ, Finset.sum_range_zero, zero_add]
    have h0 := hf 0 (by norm_num)
    have h1 := integerUpTo_add _ _ _ _ h0 (hf 1 (by norm_num))
    have h2 := integerUpTo_add _ _ _ _ h1 (hf 2 (by norm_num))
    have h3 := integerUpTo_add _ _ _ _ h2 (hf 3 (by norm_num))
    have h4 := integerUpTo_add _ _ _ _ h3 (hf 4 (by norm_num))
    have h5 := integerUpTo_add _ _ _ _ h4 (hf 5 (by norm_num))
    have h6 := integerUpTo_add _ _ _ _ h5 (hf 6 (by norm_num))
    exact ⟨h6.1, le_trans h6.2 (by norm_num)⟩
  have hsub : ∀ f g : Field,
      subDouble (∑ i in Finset.range 7, slotValueOrZero player i f)
          (∑ i in Finset.range 7, slotValueOrZero player i g) =
        ∑ i in Finset.range 7, slotValueOrZero player i f -
          ∑ i in Finset.range 7, slotValueOrZero player i g :=
    fun f g => subDouble_of_integer _ _ _ _ (hint f) (hint g) (by norm_num)
  rw [computeTotals_of_integer player h]
  dsimp only
  rw [hsub, hsub]
  exact ⟨Finset.sum_sub_distrib, Finset.sum_sub_distrib, Finset.sum_sub_distrib,
    Finset.sum_sub_distrib⟩

/-- Witness of the amended C2: player `B` of the ranking scenario has integer
statistics, and its net totals are the differences of its totals. -/
theorem computeTotals_net_linear_of_integer_witness :
    scenarioB.IntegerStats ∧
    (computeTotals scenarioB).netStars =
        subDouble (computeTotals scenarioB).attackStars (computeTotals scenarioB).defenseStars ∧
    (computeTotals scenarioB).netPct =
        subDouble (computeTotals scenarioB).attackPct (computeTotals scenarioB).defensePct ∧
    (computeTotals scenarioB).netStars =
        (computeTotals scenarioB).attackStars - (computeTotals scenarioB).defenseStars ∧
    (computeTotals scenarioB).netPct =
        (computeTotals scenarioB).attackPct - (computeTotals scenarioB).defensePct :=
  ⟨by decide!, computeTotals_net_linear_of_integer scenarioB (by decide!)⟩

/-! ## Ranking -/

/-- Exchanging the arguments of `compareChars` flips the sign of the result. -/
theorem compareChars_flip : ∀ a b : List Char, compareChars a b < 0 ↔ 0 < compareChars b a
  | [], [] => by simp [compareChars]
  | [], _ :: _ => by simp [compareChars]
  | _ :: _, [] => by simp [compareChars]
  | x :: xs, y :: ys => by
    have ih := compareChars_flip xs ys
    simp only [compareChars]
    split_ifs <;> omega

/-- The relation "not after" of `compareChars` is transitive. -/
theorem compareChars_trans : ∀ a b c : List Char,
    compareChars a b ≤ 0 → compareChars b c ≤ 0 → compareChars a c ≤ 0
  | [], _, [] => by simp [compareChars]
  | [], _, _ :: _ => by simp [compareChars]
  | _ :: _, [], _ => by simp [compareChars]
  | _ :: _, _ :: _, [] => by simp [compareChars]
  | x :: xs, y :: ys, z :: zs => by
    have ih := compareChars_trans xs ys zs
    simp only [compareChars]
    split_ifs <;> omega

/-- Ordering strings by code points is a consistent comparator. -/
theorem codePointCompare_consistent : ConsistentComparator codePointCompare :=
  ⟨fun a b => compareChars_flip a.toList b.toList,
    fun a b c => compareChars_trans a.toList b.toList c.toList⟩

/-- What a non-positive result of the comparator means for the sort keys. -/
theorem compareRows_le_iff (lc : String → String → ℤ) (a b : Row) :
    compareRows lc a b ≤ 0 ↔
      b.netStars < a.netStars ∨
        (b.netStars = a.netStars ∧ b.netPct < a.netPct) ∨
        (b.netStars = a.netStars ∧ b.netPct = a.netPct ∧ lc a.name b.name ≤ 0) := by
  unfold compareRows
  by_cases h1 : b.netStars = a.netStars
  · by_cases h2 : b.netPct = a.netPct
    · simp [h1, h2]
    · simp only [h1, h2, ne_eq, not_true_eq_false, not_false_eq_true, if_true, if_false,
        lt_irrefl, false_or, true_and, false_and, or_false, sub_nonpos]
      exact ⟨fun h => lt_of_le_of_ne h h2, le_of_lt⟩
  · simp only [h1, ne_eq, not_false_eq_true, if_true, false_and, or_false, sub_nonpos]
    exact ⟨fun h => lt_of_le_of_ne h h1, le_of_lt⟩

/-- With a consistent `localeCompare`, any two rows are comparable. -/
theorem compareRows_total (lc : String → String → ℤ) (hlc : ConsistentComparator lc)
    (a b : Row) : compareRows lc a b ≤ 0 ∨ compareRows lc b a ≤ 0 := by
  rw [compareRows_le_iff, compareRows_le_iff]
  rcases lt_trichotomy b.netStars a.netStars with h | h | h
  · exact Or.inl (Or.inl h)
  · rcases lt_trichotomy b.netPct a.netPct with h' | h' | h'
    · exact Or.inl (Or.inr (Or.inl ⟨h, h'⟩))
    · by_cases hn : lc a.name b.name ≤ 0
      · exact Or.inl (Or.inr (Or.inr ⟨h, h', hn⟩))
      · have := (hlc.1 b.name a.name).2 (by omega)
        exact Or.inr (Or.inr (Or.inr ⟨h.symm, h'.symm, by omega⟩))
    · exact Or.inr (Or.inr (Or.inl ⟨h.symm, h'⟩))
  · exact Or.inr (Or.inl h)

/-- With a consistent `localeCompare`, the order of the comparator is transitive. -/
theorem compareRows_trans (lc : String → String → ℤ) (hlc : ConsistentComparator lc)
    (a b c : Row) (hab : compareRows lc a b ≤ 0) (hbc : compareRows lc b c ≤ 0) :
    compareRows lc a c ≤ 0 := by
  rw [compareRows_le_iff] at hab hbc ⊢
  rcases hab with h | ⟨h, h'⟩ | ⟨h, h', hn⟩ <;>
    rcases hbc with k | ⟨k, k'⟩ | ⟨k, k', kn⟩
  · exact Or.inl (k.trans h)
  · exact Or.inl (k ▸ h)
  · exact Or.inl (k ▸ h)
  · exact Or.inl (h ▸ k)
  · exact Or.inr (Or.inl ⟨k.trans h, k'.trans h'⟩)
  · exact Or.inr (Or.inl ⟨k.trans h, k' ▸ h'⟩)
  · exact Or.inl (h ▸ k)
  · exact Or.inr (Or.inl ⟨k.trans h, h' ▸ k'⟩)
  · exact Or.inr (Or.inr ⟨k.trans h, k'.trans h', hlc.2 _ _ _ hn kn⟩)

/-- Two rows that are each not after the other tie on all three keys. -/
theorem compareRows_antisymm (lc : String → String → ℤ) (hlc : ConsistentComparator lc)
    (a b : Row) (hab : compareRows lc a b ≤ 0) (hba : compareRows lc b a ≤ 0) :
    compareRows lc a b = 0 := by
  have hab' := (compareRows_le_iff lc a b).1 hab
  have hba' := (compareRows_le_iff lc b a).1 hba
  rcases hab' with h | ⟨h, h'⟩ | ⟨h, h', hn⟩ <;>
    rcases hba' with k | ⟨k, k'⟩ | ⟨k, k', kn⟩
  · exact absurd (h.trans k) (lt_irrefl _)
  · exact absurd (k ▸ h) (lt_irrefl _)
  · exact absurd (k ▸ h) (lt_irrefl _)
  · exact absurd (h ▸ k) (lt_irrefl _)
  · exact absurd (h'.trans k') (lt_irrefl _)
  · exact absurd (k' ▸ h') (lt_irrefl _)
  · exact absurd (h ▸ k) (lt_irrefl _)
  · exact absurd (h' ▸ k') (lt_irrefl _)
  · have h0 : lc a.name b.name = 0 := by
      have := hlc.1 a.name b.name
      omega
    simp [compareRows, h, h', h0]

/-- The result of `sort` is a permutation of its argument. -/
theorem sort_perm {α : Type} (comparefn : α → α → ℚ) (l : List α) :
    (sort comparefn l).Perm l :=
  List.perm_insertionSort _ l

/-- With a consistent `localeCompare`, sorting rows with the comparator of
`buildLeaderboard` leaves every row not after all the rows that follow it. -/
theorem sort_compareRows_sorted (lc : String → String → ℤ) (hlc : ConsistentComparator lc)
    (l : List Row) :
    (sort (compareRows lc) l).Pairwise fun a b => compareRows lc a b ≤ 0 := by
  haveI : IsTotal Row (fun a b => compareRows lc a b ≤ 0) := ⟨compareRows_total lc hlc⟩
  haveI : IsTrans Row (fun a b => compareRows lc a b ≤ 0) := ⟨compareRows_trans lc hlc⟩
  exact List.sorted_insertionSort (fun a b => compareRows lc a b ≤ 0) l

/-- Ranking keeps the sorted rows and only adds the rank. -/
theorem buildLeaderboard_rows (lc : String → String → ℤ) (players : List Player) :
    (buildLeaderboard lc players).map RankedRow.toRow =
      sort (compareRows lc) (players.map Row.ofPlayer) := by
  unfold buildLeaderboard
  apply List.ext_getElem
  · simp
  · intro n h1 h2
    simp

/-- The rank stored at position `k` of the leaderboard. -/
theorem buildLeaderboard_rank (lc : String → String → ℤ) (players : List Player) (k : Nat) :
    ((buildLeaderboard lc players).get? k).map RankedRow.rank =
      if k < players.length then some (k + 1) else none := by
  have hlen : (sort (compareRows lc) (players.map Row.ofPlayer)).length = players.length := by
    rw [(sort_perm _ _).length_eq, List.length_map]
  unfold buildLeaderboard
  simp only [List.get?_eq_getElem?, List.getElem?_mapIdx, Option.map_map]
  by_cases hk : k < players.length
  · rw [if_pos hk, List.getElem?_eq_getElem (by rw [hlen]; exact hk)]
    rfl
  · rw [if_neg hk, List.getElem?_eq_none (by rw [hlen]; omega)]
    rfl

/-- C3: with a consistent `localeCompare`, any two adjacent rows `r`, `s` of the
leaderboard of any list of players satisfy: `r` has more net stars, or the same
net stars and more net percentage, or the same of both and a name that compares
less than or equal to that of `s`. Players `A` (3/80/1/20) and `B` (2/90/0/10)
tie at 2 net stars and are ranked `B` first, `A` second. -/
theorem buildLeaderboard_ordered (lc : String → String → ℤ) (hlc : ConsistentComparator lc) :
    (∀ players : List Player, List.Chain' (RankedBefore lc) (buildLeaderboard lc players)) ∧
    buildLeaderboard lc [scenarioA, scenarioB] =
      [{ id := "b", name := "B", attackStars := 2, attackPct := 90, defenseStars := 0,
         defensePct := 10, netStars := 2, netPct := 80, rank := 1 },
       { id := "a", name := "A", attackStars := 3, attackPct := 80, defenseStars := 1,
         defensePct := 20, netStars := 2, netPct := 60, rank := 2 }] := by
  constructor
  · intro players
    apply List.Pairwise.chain'
    have hs := sort_compareRows_sorted lc hlc (players.map Row.ofPlayer)
    rw [← buildLeaderboard_rows, List.pairwise_map] at hs
    refine hs.imp ?_
    intro r s hrs
    rcases (compareRows_le_iff lc r.toRow s.toRow).1 hrs with h | ⟨h, h'⟩ | ⟨h, h', hn⟩
    · exact Or.inl h
    · exact Or.inr (Or.inl ⟨h.symm, h'⟩)
    · exact Or.inr (Or.inr ⟨h.symm, h'.symm, hn⟩)
  · have hA : Row.ofPlayer scenarioA =
        { id := "a", name := "A", attackStars := 3, attackPct := 80, defenseStars := 1,
          defensePct := 20, netStars := 2, netPct := 60 } := by decide!
    have hB : Row.ofPlayer scenarioB =
        { id := "b", name := "B", attackStars := 2, attackPct := 90, defenseStars := 0,
          defensePct := 10, netStars := 2, netPct := 80 } := by decide!
    have hcmp : ¬ compareRows lc (Row.ofPlayer scenarioA) (Row.ofPlayer scenarioB) ≤ 0 := by
      rw [hA, hB]
      simp only [compareRows]
      norm_num
    simp only [buildLeaderboard, sort, List.map, List.insertionSort, List.orderedInsert,
      if_neg hcmp]
    rw [hA, hB]
    rfl

/-- Witness of C3 for the collation by code points, on the list `[A, B]`. -/
theorem buildLeaderboard_ordered_witness :
    ConsistentComparator codePointCompare ∧
    List.Chain' (RankedBefore codePointCompare)
      (buildLeaderboard codePointCompare [scenarioA, scenarioB]) :=
  ⟨codePointCompare_consistent,
    (buildLeaderboard_ordered codePointCompare codePointCompare_consistent).1
      [scenarioA, scenarioB]⟩

/-- C4: for every list of players, `buildLeaderboard` returns as many rows as there
are players, its rows without the rank are a permutation of the players projected
to id, name and `computeTotals`, and the row at position `k` (0-based) has rank
`k + 1`, so that the ranks are 1, 2, ..., n in this order. -/
theorem buildLeaderboard_perm_rank (lc : String → String → ℤ) (players : List Player) :
    (buildLeaderboard lc players).length = players.length ∧
    ((buildLeaderboard lc players).map RankedRow.toRow).Perm
      (players.map fun player =>
        { id := player._id, name := player.name, toTotals := computeTotals player }) ∧
    (∀ k : Nat, ((buildLeaderboard lc players).get? k).map RankedRow.rank =
      if k < players.length then some (k + 1) else none) ∧
    (buildLeaderboard lc players).map RankedRow.rank = List.range' 1 players.length := by
  have hperm : ((buildLeaderboard lc players).map RankedRow.toRow).Perm
      (players.map Row.ofPlayer) := by
    rw [buildLeaderboard_rows]
    exact sort_perm _ _
  have hlen : (buildLeaderboard lc players).length = players.length := by
    have := hperm.length_eq
    simpa using this
  refine ⟨hlen, hperm, buildLeaderboard_rank lc players, ?_⟩
  apply List.ext_get?
  intro k
  rw [List.get?_eq_getElem?, List.getElem?_map, ← List.get?_eq_getElem?,
    buildLeaderboard_rank]
  by_cases hk : k < players.length
  · rw [if_pos hk, List.get?_eq_getElem?, List.getElem?_range' _ _ hk]
    simp [Nat.add_comm]
  · rw [if_neg hk, List.get?_eq_getElem?, List.getElem?_eq_none (by simp; omega)]

/-- Composing both strings and ordering by code points is a consistent
comparator. -/
theorem canonicalCompare_consistent : ConsistentComparator canonicalCompare :=
  ⟨fun a b => compareChars_flip (canonicalCompose a.toList) (canonicalCompose b.toList),
    fun a b c => compareChars_trans (canonicalCompose a.toList) (canonicalCompose b.toList)
      (canonicalCompose c.toList)⟩

/-- The ranks of the leaderboard increase along the list. -/
theorem buildLeaderboard_rank_increasing (lc : String → String → ℤ) (players : List Player) :
    (buildLeaderboard lc players).Pairwise fun r s => r.rank < s.rank := by
  have hranks : (buildLeaderboard lc players).map RankedRow.rank =
      List.range' 1 players.length := by
    apply List.ext_get?
    intro k
    rw [List.get?_eq_getElem?, List.getElem?_map, ← List.get?_eq_getElem?,
      buildLeaderboard_rank]
    by_cases hk : k < players.length
    · rw [if_pos hk, List.get?_eq_getElem?, List.getElem?_range' _ _ hk]
      simp [Nat.add_comm]
    · rw [if_neg hk, List.get?_eq_getElem?, List.getElem?_eq_none (by simp; omega)]
  have h := List.pairwise_lt_range' 1 players.length
  rw [← hranks, List.pairwise_map] at h
  exact h

/-- The sort of `buildLeaderboard` is stable: when the player `p` comes before the
player `q` in the input and the row of `p` is not after the row of `q`, the row of
`p` is ranked above the row of `q`. -/
theorem buildLeaderboard_stable (lc : String → String → ℤ) (players : List Player)
    (p q : Player) (hpq : List.Sublist [p, q] players)
    (hle : compareRows lc (Row.ofPlayer p) (Row.ofPlayer q) ≤ 0) :
    ∃ r s : RankedRow, List.Sublist [r, s] (buildLeaderboard lc players) ∧
      r.toRow = Row.ofPlayer p ∧ s.toRow = Row.ofPlayer q ∧ r.rank < s.rank := by
  have hrows : List.Sublist [Row.ofPlayer p, Row.ofPlayer q] (players.map Row.ofPlayer) :=
    hpq.map Row.ofPlayer
  have hsorted : List.Sublist [Row.ofPlayer p, Row.ofPlayer q]
      ((buildLeaderboard lc players).map RankedRow.toRow) := by
    rw [buildLeaderboard_rows]
    have h : List.Sublist [Row.ofPlayer p, Row.ofPlayer q]
        (List.insertionSort (fun a b => compareRows lc a b ≤ 0) (players.map Row.ofPlayer)) :=
      List.pair_sublist_insertionSort hle hrows
    exact h
  obtain ⟨l, hl, hmap⟩ := List.sublist_map_iff.1 hsorted
  cases l with
  | nil => simp at hmap
  | cons r l =>
    cases l with
    | nil => simp at hmap
    | cons s l =>
      cases l with
      | cons _ _ => simp at hmap
      | nil =>
        simp only [List.map, List.cons.injEq, and_true] at hmap
        have hrank :=
          List.pairwise_pair.1 ((buildLeaderboard_rank_increasing lc players).sublist hl)
        exact ⟨r, s, hl, hmap.1.symm, hmap.2.symm, hrank⟩

/-- C5, as stated, fails: the names of `tiedFirst` and `tiedSecond` are different
strings of different lengths, so that neither is refused as taken when the other
exists, but they are canonically equivalent, so a `localeCompare` returns `0` on
them. The two players tie on all three sort keys, and the stable sort keeps them in
input order: exchanging them in the input exchanges them in the leaderboard. -/
theorem buildLeaderboard_input_order_matters :
    ConsistentComparator canonicalCompare ∧
    tiedFirst.name ≠ tiedSecond.name ∧
    (∀ fold : Char → Char, nameMatches fold tiedSecond.name tiedFirst.name = false ∧
      nameMatches fold tiedFirst.name tiedSecond.name = false) ∧
    canonicalCompare tiedFirst.name tiedSecond.name = 0 ∧
    [tiedFirst, tiedSecond].Perm [tiedSecond, tiedFirst] ∧
    buildLeaderboard canonicalCompare [tiedFirst, tiedSecond] =
      [{ id := "1", name := "Zo\u00e9", toTotals := zeroTotals, rank := 1 },
       { id := "2", name := "Zoe\u0301", toTotals := zeroTotals, rank := 2 }] ∧
    buildLeaderboard canonicalCompare [tiedSecond, tiedFirst] =
      [{ id := "2", name := "Zoe\u0301", toTotals := zeroTotals, rank := 1 },
       { id := "1", name := "Zo\u00e9", toTotals := zeroTotals, rank := 2 }] ∧
    buildLeaderboard canonicalCompare [tiedFirst, tiedSecond] ≠
      buildLeaderboard canonicalCompare [tiedSecond, tiedFirst] := by
  have h1 : tiedFirst.name.data = ['Z', 'o', '\u00e9'] := by decide
  have h2 : tiedSecond.name.data = ['Z', 'o', 'e', '\u0301'] := by decide
  refine ⟨canonicalCompare_consistent, by decide, ?_, by decide!, List.Perm.swap _ _ _,
    by decide!, by decide!, by decide!⟩
  intro fold
  simp [nameMatches, h1, h2]

/-- C5, amended: with a consistent `localeCompare`, when any two players of the
list that tie on all three sort keys have the same row (id, name and totals),
`buildLeaderboard` returns the same ranked rows for every permutation of the
list; and in every list, two players that tie on all three sort keys keep their
input order: the row of the one that comes first in the input is ranked above the
row of the other. -/
theorem buildLeaderboard_perm_invariant (lc : String → String → ℤ)
    (hlc : ConsistentComparator lc) :
    (∀ l₁ l₂ : List Player, l₁.Perm l₂ →
      (∀ p ∈ l₁, ∀ q ∈ l₁,
        compareRows lc (Row.ofPlayer p) (Row.ofPlayer q) = 0 →
          Row.ofPlayer p = Row.ofPlayer q) →
      buildLeaderboard lc l₁ = buildLeaderboard lc l₂) ∧
    (∀ (players : List Player) (p q : Player), List.Sublist [p, q] players →
      compareRows lc (Row.ofPlayer p) (Row.ofPlayer q) = 0 →
      ∃ r s : RankedRow, List.Sublist [r, s] (buildLeaderboard lc players) ∧
        r.toRow = Row.ofPlayer p ∧ s.toRow = Row.ofPlayer q ∧ r.rank < s.rank) := by
  constructor
  · intro l₁ l₂ hperm hties
    have hsorted :
        sort (compareRows lc) (l₁.map Row.ofPlayer) =
          sort (compareRows lc) (l₂.map Row.ofPlayer) := by
      refine List.Perm.eq_of_sorted ?_ (sort_compareRows_sorted lc hlc _)
        (sort_compareRows_sorted lc hlc _)
        ((sort_perm _ _).trans ((hperm.map _).trans (sort_perm _ _).symm))
      intro a b ha hb hab hba
      have ha' : a ∈ l₁.map Row.ofPlayer := (sort_perm _ _).subset ha
      have hb' : b ∈ l₁.map Row.ofPlayer :=
        (hperm.map Row.ofPlayer).symm.subset ((sort_perm _ _).subset hb)
      obtain ⟨p, hp, rfl⟩ := List.mem_map.1 ha'
      obtain ⟨q, hq, rfl⟩ := List.mem_map.1 hb'
      exact hties p hp q hq (compareRows_antisymm lc hlc _ _ hab hba)
    unfold buildLeaderboard
    simp only [hsorted]
  · intro players p q hpq htie
    exact buildLeaderboard_stable lc players p q hpq (le_of_eq htie)

/-- Witness of the amended C5, under the collation that composes canonically
equivalent strings: the players `A` and `B` of the scenario do not tie and are
ranked the same in both orders, and the players `tiedFirst` and `tiedSecond` tie
and keep their input order. -/
theorem buildLeaderboard_perm_invariant_witness :
    ConsistentComparator canonicalCompare ∧
    ([scenarioA, scenarioB].Perm [scenarioB, scenarioA] ∧
      (∀ p ∈ [scenarioA, scenarioB], ∀ q ∈ [scenarioA, scenarioB],
        compareRows canonicalCompare (Row.ofPlayer p) (Row.ofPlayer q) = 0 →
          Row.ofPlayer p = Row.ofPlayer q) ∧
      buildLeaderboard canonicalCompare [scenarioA, scenarioB] =
        buildLeaderboard canonicalCompare [scenarioB, scenarioA]) ∧
    (List.Sublist [tiedSecond, tiedFirst] [tiedSecond, tiedFirst] ∧
      compareRows canonicalCompare (Row.ofPlayer tiedSecond) (Row.ofPlayer tiedFirst) = 0 ∧
      ∃ r s : RankedRow, List.Sublist [r, s] (buildLeaderboard canonicalCompare [tiedSecond, tiedFirst]) ∧
        r.toRow = Row.ofPlayer tiedSecond ∧ s.toRow = Row.ofPlayer tiedFirst ∧
        r.rank < s.rank) :=
  ⟨canonicalCompare_consistent,
    ⟨List.Perm.swap _ _ _, by decide!,
      (buildLeaderboard_perm_invariant canonicalCompare canonicalCompare_consistent).1
        [scenarioA, scenarioB] [scenarioB, scenarioA] (List.Perm.swap _ _ _) (by decide!)⟩,
    ⟨List.Sublist.refl _, by decide!,
      (buildLeaderboard_perm_invariant canonicalCompare canonicalCompare_consistent).2
        [tiedSecond, tiedFirst] tiedSecond tiedFirst (List.Sublist.refl _) (by decide!)⟩⟩

/-! ## Edit-time clamping -/

/-- The effect of `clampNumber` on a value that converts to the finite number `q`. -/
theorem clampNumber_of_fin (v : JSValue) (min max q : ℚ) (hq : Number v = .fin q) :
    clampNumber v min max = Min.min (Max.max q min) max := by
  simp [clampNumber, hq]

/-- The effect of `clampNumber` on a value that converts to no finite number. -/
theorem clampNumber_of_not_fin (v : JSValue) (min max : ℚ) (hq : ∀ q, Number v ≠ .fin q) :
    clampNumber v min max = min := by
  unfold clampNumber
  cases h : Number v with
  | fin q => exact absurd h (hq q)
  | nan => rfl
  | posInf => rfl
  | negInf => rfl

/-- The result of `clampNumber` lies between the bounds. -/
theorem clampNumber_bounds (v : JSValue) (min max : ℚ) (h : min ≤ max) :
    min ≤ clampNumber v min max ∧ clampNumber v min max ≤ max := by
  cases hv : Number v with
  | fin q =>
    rw [clampNumber_of_fin v min max q hv]
    exact ⟨le_min (le_max_right _ _) h, min_le_right _ _⟩
  | nan => simp [clampNumber, hv, h]
  | posInf => simp [clampNumber, hv, h]
  | negInf => simp [clampNumber, hv, h]

/-- C6: for bounds `min ≤ max` and every raw value `v`, `clampNumber v min max`
lies between `min` and `max`; it is `min` when `v` converts to `NaN`, `Infinity` or
`-Infinity`; it is the numeric value of `v` when that lies between the bounds,
`min` when it is below `min` and `max` when it is above `max`. In particular
`clampNumber("abc", 0, 3) = 0`, `clampNumber(-5, 0, 100) = 0`,
`clampNumber(150, 0, 100) = 100` and `clampNumber(2, 0, 3) = 2`. -/
theorem clampNumber_spec (v : JSValue) (min max : ℚ) (h : min ≤ max) :
    (min ≤ clampNumber v min max ∧ clampNumber v min max ≤ max) ∧
    (Number v = .nan ∨ Number v = .posInf ∨ Number v = .negInf →
      clampNumber v min max = min) ∧
    (∀ q, Number v = .fin q → min ≤ q → q ≤ max → clampNumber v min max = q) ∧
    (∀ q, Number v = .fin q → q < min → clampNumber v min max = min) ∧
    (∀ q, Number v = .fin q → max < q → clampNumber v min max = max) ∧
    clampNumber (.str "abc") 0 3 = 0 ∧
    clampNumber (.num (.fin (-5))) 0 100 = 0 ∧
    clampNumber (.num (.fin 150)) 0 100 = 100 ∧
    clampNumber (.num (.fin 2)) 0 3 = 2 := by
  refine ⟨?_, ?_, ?_, ?_, ?_, by decide!, by decide!, by decide!, by decide!⟩
  · exact clampNumber_bounds v min max h
  · intro hv
    apply clampNumber_of_not_fin
    intro q hq
    rcases hv with hv | hv | hv <;> rw [hv] at hq <;> cases hq
  · intro q hq h1 h2
    rw [clampNumber_of_fin v min max q hq, max_eq_left h1, min_eq_left h2]
  · intro q hq h1
    rw [clampNumber_of_fin v min max q hq, max_eq_right h1.le, min_eq_left h]
  · intro q hq h1
    rw [clampNumber_of_fin v min max q hq, max_eq_left (h.trans h1.le), min_eq_right h1.le]

/-- Witness of C6: the raw string `"2"` between the bounds 0 and 3. -/
theorem clampNumber_spec_witness :
    (0 : ℚ) ≤ 3 ∧ clampNumber (.str "2") 0 3 = 2 :=
  ⟨by norm_num,
    (clampNumber_spec (.str "2") 0 3 (by norm_num)).2.2.1 2 (by decide!) (by norm_num)
      (by norm_num)⟩

/-- The bound chosen by `handleWarFieldChange` for each statistic. -/
theorem handleWarFieldChange_max_eq :
    handleWarFieldChange.max .attackStars = 3 ∧ handleWarFieldChange.max .attackPct = 100 ∧
    handleWarFieldChange.max .defenseStars = 3 ∧ handleWarFieldChange.max .defensePct = 100 :=
  ⟨by decide!, by decide!, by decide!, by decide!⟩

/-- C7, as stated, fails: typing `1.5` into the attack-stars cell stores `3/2`,
which is no integer. -/
theorem handleWarFieldChange_value_fraction :
    handleWarFieldChange.value .attackStars (.str "1.5") = 3 / 2 ∧
    ¬ ∃ n : ℤ, handleWarFieldChange.value .attackStars (.str "1.5") = n := by
  have hv : handleWarFieldChange.value .attackStars (.str "1.5") = 3 / 2 := by decide!
  refine ⟨hv, ?_⟩
  rw [hv]
  rintro ⟨n, hn⟩
  have h2 : (3 : ℚ) = 2 * n := by linarith
  have h3 : (3 : ℤ) = 2 * n := by exact_mod_cast h2
  omega

/-- C7, amended: for every statistic and every raw value, the value stored by the
edit is an integer whenever the raw value does not convert to a finite number
that is no integer, and a raw value that converts to a number between 0 and the
bound of the statistic is stored as it is, fraction included. -/
theorem handleWarFieldChange_value_integer (field : Field) (rawValue : JSValue) :
    ((∀ q, Number rawValue = .fin q → ∃ n : ℤ, q = n) →
      ∃ n : ℤ, handleWarFieldChange.value field rawValue = n) ∧
    (∀ q, Number rawValue = .fin q → 0 ≤ q → q ≤ handleWarFieldChange.max field →
      handleWarFieldChange.value field rawValue = q) := by
  have hmax : ∃ m : ℤ, handleWarFieldChange.max field = m ∧ (0 : ℚ) ≤ m := by
    obtain ⟨h1, h2, h3, h4⟩ := handleWarFieldChange_max_eq
    cases field
    · exact ⟨3, by rw [h1]; norm_num, by norm_num⟩
    · exact ⟨100, by rw [h2]; norm_num, by norm_num⟩
    · exact ⟨3, by rw [h3]; norm_num, by norm_num⟩
    · exact ⟨100, by rw [h4]; norm_num, by norm_num⟩
  obtain ⟨m, hm, hm0⟩ := hmax
  constructor
  · intro hint
    unfold handleWarFieldChange.value
    cases hv : Number rawValue with
    | fin q =>
      obtain ⟨n, rfl⟩ := hint q hv
      rw [clampNumber_of_fin _ _ _ _ hv, hm]
      exact ⟨Min.min (Max.max n 0) m, by push_cast; rfl⟩
    | nan => exact ⟨0, by simp [clampNumber, hv]⟩
    | posInf => exact ⟨0, by simp [clampNumber, hv]⟩
    | negInf => exact ⟨0, by simp [clampNumber, hv]⟩
  · intro q hq h0 h1
    unfold handleWarFieldChange.value
    rw [clampNumber_of_fin _ _ _ _ hq, max_eq_left h0, min_eq_left h1]

/-- C8: for every raw value, an edit of `attackStars` or `defenseStars` stores a
value between 0 and 3, and an edit of `attackPct` or `defensePct` stores a value
between 0 and 100. -/
theorem handleWarFieldChange_value_range (rawValue : JSValue) :
    (0 ≤ handleWarFieldChange.value .attackStars rawValue ∧
      handleWarFieldChange.value .attackStars rawValue ≤ 3) ∧
    (0 ≤ handleWarFieldChange.value .defenseStars rawValue ∧
      handleWarFieldChange.value .defenseStars rawValue ≤ 3) ∧
    (0 ≤ handleWarFieldChange.value .attackPct rawValue ∧
      handleWarFieldChange.value .attackPct rawValue ≤ 100) ∧
    (0 ≤ handleWarFieldChange.value .defensePct rawValue ∧
      handleWarFieldChange.value .defensePct rawValue ≤ 100) := by
  obtain ⟨h1, h2, h3, h4⟩ := handleWarFieldChange_max_eq
  unfold handleWarFieldChange.value
  rw [h1, h2, h3, h4]
  exact ⟨clampNumber_bounds rawValue 0 3 (by norm_num),
    clampNumber_bounds rawValue 0 3 (by norm_num),
    clampNumber_bounds rawValue 0 100 (by norm_num),
    clampNumber_bounds rawValue 0 100 (by norm_num)⟩

/-! ## Commit-time validation -/

/-- Within its bounds, the server's `clamp` returns its argument. -/
theorem clamp_of_mem (value min max : ℚ) (h1 : min ≤ value) (h2 : value ≤ max) :
    clamp value min max = value := by
  rw [clamp, max_eq_left h1, min_eq_left h2]

/-- Characterisation of the accepted bodies of `parseWarPayload`. -/
theorem parseWarPayload_ok_iff (body : WarBody) (w : War) :
    parseWarPayload body = .ok w ↔
      (Number body.attackStars = .fin w.attackStars ∧ 0 ≤ w.attackStars ∧ w.attackStars ≤ 3) ∧
      (Number body.attackPct = .fin w.attackPct ∧ 0 ≤ w.attackPct ∧ w.attackPct ≤ 100) ∧
      (Number body.defenseStars = .fin w.defenseStars ∧ 0 ≤ w.defenseStars ∧
        w.defenseStars ≤ 3) ∧
      (Number body.defensePct = .fin w.defensePct ∧ 0 ≤ w.defensePct ∧
        w.defensePct ≤ 100) := by
  obtain ⟨wa, wp, wd, wq⟩ := w
  unfold parseWarPayload
  split
  · next a p d q ha hp hd hq =>
    simp only [ha, hp, hd, hq, JSNum.fin.injEq]
    split_ifs with hr
    · simp only [reduceCtorEq, false_iff]
      rintro ⟨⟨rfl, h1, h2⟩, ⟨rfl, h3, h4⟩, ⟨rfl, h5, h6⟩, ⟨rfl, h7, h8⟩⟩
      rcases hr with h | h | h | h | h | h | h | h <;> linarith
    · simp only [not_or, not_lt] at hr
      obtain ⟨h1, h2, h3, h4, h5, h6, h7, h8⟩ := hr
      rw [clamp_of_mem _ _ _ h1 h2, clamp_of_mem _ _ _ h5 h6, clamp_of_mem _ _ _ h3 h4,
        clamp_of_mem _ _ _ h7 h8]
      simp only [Except.ok.injEq, War.mk.injEq]
      constructor
      · rintro ⟨rfl, rfl, rfl, rfl⟩
        exact ⟨⟨rfl, h1, h2⟩, ⟨rfl, h5, h6⟩, ⟨rfl, h3, h4⟩, ⟨rfl, h7, h8⟩⟩
      · rintro ⟨⟨ka, -⟩, ⟨kp, -⟩, ⟨kd, -⟩, ⟨kq, -⟩⟩
        exact ⟨ka, kp, kd, kq⟩
  · next hne =>
    simp only [reduceCtorEq, false_iff]
    rintro ⟨⟨ka, -⟩, ⟨kp, -⟩, ⟨kd, -⟩, ⟨kq, -⟩⟩
    exact hne _ _ _ _ ka kp kd kq

/-- C9: `parseWarPayload` is strict and never clamps. For every request body it
returns an error exactly when, after conversion with `Number`, at least one of the
four values is not finite or lies outside its range (stars 0 to 3, percentages 0
to 100); and it returns the war record `w` exactly when the four values convert
to the four fields of `w` and these lie in their ranges, so that an accepted
record carries the converted values unchanged. -/
theorem parseWarPayload_strict (body : WarBody) :
    ((∃ e, parseWarPayload body = .error e) ↔
      (¬ (Number body.attackStars).InRange 0 3 ∨ ¬ (Number body.attackPct).InRange 0 100 ∨
        ¬ (Number body.defenseStars).InRange 0 3 ∨
        ¬ (Number body.defensePct).InRange 0 100)) ∧
    (∀ w : War, parseWarPayload body = .ok w ↔
      (Number body.attackStars = .fin w.attackStars ∧ 0 ≤ w.attackStars ∧ w.attackStars ≤ 3) ∧
      (Number body.attackPct = .fin w.attackPct ∧ 0 ≤ w.attackPct ∧ w.attackPct ≤ 100) ∧
      (Number body.defenseStars = .fin w.defenseStars ∧ 0 ≤ w.defenseStars ∧
        w.defenseStars ≤ 3) ∧
      (Number body.defensePct = .fin w.defensePct ∧ 0 ≤ w.defensePct ∧
        w.defensePct ≤ 100)) := by
  refine ⟨?_, parseWarPayload_ok_iff body⟩
  cases hres : parseWarPayload body with
  | error e =>
    refine ⟨fun _ => ?_, fun _ => ⟨e, rfl⟩⟩
    by_contra hall
    simp only [not_or, not_not] at hall
    obtain ⟨⟨a, ha, ha0, ha1⟩, ⟨p, hp, hp0, hp1⟩, ⟨d, hd, hd0, hd1⟩, ⟨q, hq, hq0, hq1⟩⟩ := hall
    have hok := (parseWarPayload_ok_iff body
      { attackStars := a, attackPct := p, defenseStars := d, defensePct := q }).2
      ⟨⟨ha, ha0, ha1⟩, ⟨hp, hp0, hp1⟩, ⟨hd, hd0, hd1⟩, ⟨hq, hq0, hq1⟩⟩
    rw [hres] at hok
    cases hok
  | ok w =>
    obtain ⟨⟨ha, ha0, ha1⟩, ⟨hp, hp0, hp1⟩, ⟨hd, hd0, hd1⟩, ⟨hq, hq0, hq1⟩⟩ :=
      (parseWarPayload_ok_iff body w).1 hres
    constructor
    · rintro ⟨e, he⟩
      cases he
    · rintro (h | h | h | h)
      · exact absurd ⟨_, ha, ha0, ha1⟩ h
      · exact absurd ⟨_, hp, hp0, hp1⟩ h
      · exact absurd ⟨_, hd, hd0, hd1⟩ h
      · exact absurd ⟨_, hq, hq0, hq1⟩ h

/-- C10, at the failing inputs: `parseWarPayload` accepts a body whose
`attackStars` is `null` and stores it as 0, and accepts a body holding an empty
string, `true` and `false` as 0, 1 and 0, although none of these is a number; an
absent property and a non-numeric string are rejected with the message
"All war values must be numbers." -/
theorem parseWarPayload_accepts_non_numbers :
    parseWarPayload nullStarsBody =
      .ok { attackStars := 0, attackPct := 0, defenseStars := 0, defensePct := 0 } ∧
    parseWarPayload coercedBody =
      .ok { attackStars := 0, attackPct := 1, defenseStars := 0, defensePct := 50 } ∧
    parseWarPayload absentStarsBody = .error "All war values must be numbers." ∧
    parseWarPayload wordStarsBody = .error "All war values must be numbers." :=
  ⟨by decide!, by decide!, by decide!, by decide!⟩

/-! ## Arrays and war documents -/

/-- Reading an array after an assignment. -/
theorem arrayGet_arraySet {α : Type} (array : List (Option α)) (index : Nat) (value : α)
    (j : Nat) :
    arrayGet (arraySet array index value) j =
      if j = index then some value else arrayGet array j := by
  unfold arrayGet arraySet
  by_cases hlt : index < array.length
  · rw [if_pos hlt, List.get?_eq_getElem?, List.get?_eq_getElem?, List.getElem?_set]
    by_cases hj : j = index
    · subst hj
      simp [hlt]
    · have hj2 : ¬ index = j := fun h => hj h.symm
      simp [hj, hj2]
  · rw [if_neg hlt, List.get?_eq_getElem?, List.get?_eq_getElem?]
    have hlen : array.length ≤ index := Nat.le_of_not_lt hlt
    by_cases hj : j = index
    · subst hj
      rw [if_pos rfl, List.getElem?_append_right (by simp; omega)]
      have hz : j - (array ++ List.replicate (j - array.length) none).length = 0 := by
        simp
        omega
      rw [hz]
      rfl
    · rw [if_neg hj]
      by_cases hjl : j < array.length
      · rw [List.append_assoc, List.getElem?_append_left hjl]
      · have h1 : (array ++ List.replicate (index - array.length) none ++ [some value])[j]?.join
            = none := by
          by_cases hji : j < index
          · rw [List.getElem?_append_left (by simp; omega),
              List.getElem?_append_right (by omega), List.getElem?_replicate]
            simp
          · rw [List.getElem?_eq_none (by simp; omega)]
            rfl
        rw [h1, List.getElem?_eq_none (by omega)]
        rfl

/-- Length of an array after an assignment inside it. -/
theorem length_arraySet_of_lt {α : Type} (array : List (Option α)) (index : Nat) (value : α)
    (h : index < array.length) : (arraySet array index value).length = array.length := by
  simp [arraySet, h]

/-- Assigning the same value twice is assigning it once. -/
theorem arraySet_arraySet {α : Type} (array : List (Option α)) (index : Nat) (value : α) :
    arraySet (arraySet array index value) index value = arraySet array index value := by
  have hlt : index < (arraySet array index value).length := by
    unfold arraySet
    split_ifs with h
    · simpa using h
    · simp
      omega
  conv_lhs => rw [arraySet, if_pos hlt]
  apply List.ext_getElem?
  intro j
  rw [List.getElem?_set]
  by_cases hj : index = j
  · subst hj
    rw [if_pos rfl, if_pos hlt]
    have := arrayGet_arraySet array index value index
    unfold arrayGet at this
    rw [List.get?_eq_getElem?, if_pos rfl] at this
    cases hg : (arraySet array index value)[index]? with
    | none => exact absurd hg (by simp [List.getElem?_eq_none_iff]; exact hlt)
    | some o =>
      rw [hg] at this
      simp only [Option.join] at this
      cases o with
      | none => simp at this
      | some v => simp at this; rw [this]
  · rw [if_neg hj]

/-- Reading the array of seven normalized slots built by an edit. -/
theorem arrayGet_normalized (player : Player) (idx : Nat) :
    arrayGet ((List.range WAR_COUNT).map fun i => some (normalizeWar (player.warAt i)).toDoc)
        idx =
      if idx < WAR_COUNT then some (normalizeWar (player.warAt idx)).toDoc else none := by
  unfold arrayGet
  rw [List.get?_eq_getElem?, List.getElem?_map]
  by_cases h : idx < WAR_COUNT
  · rw [if_pos h, List.getElem?_range h]
    rfl
  · rw [if_neg h, List.getElem?_eq_none (by simpa using h)]
    rfl

/-- Normalizing a complete slot gives it back. -/
theorem normalizeWar_toDoc (war : War) : normalizeWar (some war.toDoc) = war := by
  simp [normalizeWar, War.toDoc]

/-- Reading a statistic with missing data as zero is reading the normalized slot. -/
theorem slotValueOrZero_eq (player : Player) (idx : Nat) (f : Field) :
    slotValueOrZero player idx f = (normalizeWar (player.warAt idx)).get f := by
  obtain ⟨h1, h2, h3, h4⟩ := normalizeWar_warAt player idx
  cases f
  · exact h1.symm
  · exact h2.symm
  · exact h3.symm
  · exact h4.symm

/-- Normalizing a complete slot in which one statistic was replaced. -/
theorem normalizeWar_set_get (war : War) (field : Field) (value : ℚ) (g : Field) :
    (normalizeWar (some (war.toDoc.set field value))).get g =
      if g = field then value else war.get g := by
  cases field <;> cases g <;> simp [normalizeWar, War.toDoc, WarDoc.set, War.get]

/-! ## Edit -/

/-- The slots of a player after the updater of an edit of that player. -/
theorem update_warAt (playerId : String) (warIndex : Nat) (field : Field) (value : ℚ)
    (player : Player) (hid : player._id = playerId) (hw : warIndex < WAR_COUNT) (idx : Nat)
    (hidx : idx < WAR_COUNT) :
    (handleWarFieldChange.update playerId warIndex field value player).warAt idx =
      if idx = warIndex then
        some ((normalizeWar (player.warAt warIndex)).toDoc.set field value)
      else some (normalizeWar (player.warAt idx)).toDoc := by
  unfold handleWarFieldChange.update
  rw [if_neg (by simpa using hid)]
  show arrayGet _ idx = _
  rw [arrayGet_arraySet, arrayGet_normalized, arrayGet_normalized, if_pos hw, if_pos hidx]
  rfl

/-- C11: an edit of field `field` of war `warIndex` (one of 0..6) of player
`playerId` leaves the number of players, every player with another id, and the id
and name of the edited player as they were; for the edited player every statistic
of the seven slots other than `field` of slot `warIndex` reads as before (missing
data reading as zero before and after), and `field` of slot `warIndex` holds the
clamped value. -/
theorem handleWarFieldChange_frame (s : ClientState) (playerId : String) (warIndex : Nat)
    (field : Field) (rawValue : JSValue) (hw : warIndex < WAR_COUNT) :
    (handleWarFieldChange s playerId warIndex field rawValue).players.length =
      s.players.length ∧
    ∀ k player, s.players.get? k = some player →
      (player._id ≠ playerId →
        (handleWarFieldChange s playerId warIndex field rawValue).players.get? k =
          some player) ∧
      (player._id = playerId →
        ∃ edited,
          (handleWarFieldChange s playerId warIndex field rawValue).players.get? k =
            some edited ∧
          edited._id = player._id ∧ edited.name = player.name ∧
          (∀ idx g, idx < WAR_COUNT → (idx ≠ warIndex ∨ g ≠ field) →
            slotValueOrZero edited idx g = slotValueOrZero player idx g) ∧
          slotValueOrZero edited warIndex field =
            handleWarFieldChange.value field rawValue) := by
  refine ⟨by simp [handleWarFieldChange], ?_⟩
  intro k player hk
  have hget : (handleWarFieldChange s playerId warIndex field rawValue).players.get? k =
      some (handleWarFieldChange.update playerId warIndex field
        (handleWarFieldChange.value field rawValue) player) := by
    simp only [handleWarFieldChange, List.get?_eq_getElem?, List.getElem?_map]
    rw [← List.get?_eq_getElem?, hk]
    rfl
  constructor
  · intro hne
    rw [hget, handleWarFieldChange.update, if_pos hne]
  · intro hid
    refine ⟨_, hget, ?_, ?_, ?_, ?_⟩
    · simp [handleWarFieldChange.update, hid]
    · simp [handleWarFieldChange.update, hid]
    · intro idx g hidx hneq
      rw [slotValueOrZero_eq, slotValueOrZero_eq,
        update_warAt playerId warIndex field _ player hid hw idx hidx]
      by_cases h : idx = warIndex
      · subst h
        rw [if_pos rfl, normalizeWar_set_get, if_neg (by tauto)]
      · rw [if_neg h, normalizeWar_toDoc]
    · rw [slotValueOrZero_eq, update_warAt playerId warIndex field _ player hid hw warIndex hw,
        if_pos rfl, normalizeWar_set_get, if_pos rfl]

/-- Witness of C11: typing `3` into the attack-stars cell of war 2 of player Ann
leaves player Bob as it was. -/
theorem handleWarFieldChange_frame_witness :
    2 < WAR_COUNT ∧
    (handleWarFieldChange demoClient annId 2 .attackStars (.str "3")).players.get? 1 =
      some ((PlayerDoc.create "Bob" "c1").toJSON bobId) :=
  ⟨by decide,
    ((handleWarFieldChange_frame demoClient annId 2 .attackStars (.str "3") (by decide)).2 1
      ((PlayerDoc.create "Bob" "c1").toJSON bobId) (by decide!)).1 (by decide)⟩

/-- C12: an edit of war `warIndex` sets the dirty flag of `warIndex`, leaves the
dirty flag of every other war index as it was, and clears the recently-saved
marker, whatever index it pointed to. -/
theorem handleWarFieldChange_flags (s : ClientState) (playerId : String) (warIndex : Nat)
    (field : Field) (rawValue : JSValue) :
    (handleWarFieldChange s playerId warIndex field rawValue).hasUnsavedChanges warIndex =
      true ∧
    (∀ idx, idx ≠ warIndex →
      (handleWarFieldChange s playerId warIndex field rawValue).hasUnsavedChanges idx =
        s.hasUnsavedChanges idx) ∧
    (handleWarFieldChange s playerId warIndex field rawValue).savedWar = none := by
  refine ⟨?_, ?_, rfl⟩
  · simp [handleWarFieldChange]
  · intro idx hne
    simp [handleWarFieldChange, Function.update_noteq hne]

/-! ## Routes -/

/-- An accepted war index is one of 0..6. -/
theorem validWarIndex?_lt (param : String) (warIndex : Nat)
    (h : validWarIndex? param = some warIndex) : warIndex < WAR_COUNT := by
  unfold validWarIndex? at h
  split at h
  · next q _ =>
    split_ifs at h with hq
    simp only [not_or, not_not, not_lt, ge_iff_le, not_le] at hq
    obtain ⟨hden, h0, h7⟩ := hq
    have hnum : (q.num : ℚ) = q := Rat.coe_int_num_of_den_eq_one hden
    rw [← hnum] at h0 h7
    have h0' : (0 : ℤ) ≤ q.num := by exact_mod_cast h0
    have h7' : q.num < 7 := by
      have : (q.num : ℚ) < ((7 : ℤ) : ℚ) := by simpa [WAR_COUNT] using h7
      exact_mod_cast this
    simp only [Option.some.injEq] at h
    subst h
    unfold WAR_COUNT
    omega
  · cases h

/-- The decimal form of each of the indices 0..6 is accepted as that index. -/
theorem validWarIndex?_toString (warIndex : Nat) (h : warIndex < WAR_COUNT) :
    validWarIndex? (toString warIndex) = some warIndex := by
  unfold WAR_COUNT at h
  interval_cases warIndex <;> decide!

/-- The filter of `findOne` keeps a document exactly when it belongs to the clan. -/
theorem filter_clan_eq_some (found : Option PlayerDoc) (clan : String) (doc : PlayerDoc) :
    (found.filter fun d => d.clan = clan) = some doc ↔ found = some doc ∧ doc.clan = clan := by
  cases found with
  | none => simp
  | some d =>
    simp only [Option.filter, Option.some.injEq]
    by_cases hc : d.clan = clan
    · simp only [hc, decide_True, if_true, Option.some.injEq]
      constructor
      · rintro rfl
        exact ⟨rfl, hc⟩
      · rintro ⟨h, -⟩
        exact h
    · simp only [hc, decide_False, Bool.false_eq_true, if_false]
      constructor
      · intro h
        cases h
      · rintro ⟨rfl, h⟩
        exact absurd h hc

/-- The filter of `findOne` keeps nothing exactly when there is no document or it
belongs to another clan. -/
theorem filter_clan_eq_none (found : Option PlayerDoc) (clan : String) :
    (found.filter fun d => d.clan = clan) = none ↔ ∀ doc, found = some doc → doc.clan ≠ clan := by
  constructor
  · intro h doc hdoc hc
    have := (filter_clan_eq_some found clan doc).2 ⟨hdoc, hc⟩
    rw [h] at this
    cases this
  · intro h
    cases hf : (found.filter fun d => d.clan = clan) with
    | none => rfl
    | some doc =>
      obtain ⟨h1, h2⟩ := (filter_clan_eq_some found clan doc).1 hf
      exact absurd h2 (h doc h1)

/-- A document found for a clan is held under the id, which is an ObjectId, and
belongs to the clan. -/
theorem findOne_eq_some (store : Store) (id clan : String) (doc : PlayerDoc) :
    findOne store id clan = .ok (some doc) ↔
      isObjectId id = true ∧ store id = some doc ∧ doc.clan = clan := by
  unfold findOne
  by_cases h : isObjectId id = true
  · simp only [h, if_true, Except.ok.injEq, true_and]
    exact filter_clan_eq_some (store id) clan doc
  · simp [h]

/-- No document is found for a clan exactly when the id is an ObjectId that is
unknown or belongs to another clan. -/
theorem findOne_eq_none (store : Store) (id clan : String) :
    findOne store id clan = .ok none ↔
      isObjectId id = true ∧ ∀ doc, store id = some doc → doc.clan ≠ clan := by
  unfold findOne
  by_cases h : isObjectId id = true
  · simp only [h, if_true, Except.ok.injEq, true_and]
    exact filter_clan_eq_none (store id) clan
  · simp [h]

/-- The query throws exactly when the id is no ObjectId, and then with the message
of the cast error. -/
theorem findOne_eq_error (store : Store) (id clan message : String) :
    findOne store id clan = .error message ↔
      isObjectId id = false ∧ message = castErrorMessage id := by
  unfold findOne
  by_cases h : isObjectId id = true
  · simp [h]
  · have hid : isObjectId id = false := by simpa using h
    simp only [hid, Bool.false_eq_true, if_false, Except.error.injEq, true_and]
    exact eq_comm

/-- The route `PUT /:id/war/:warIndex` when it accepts the request. -/
theorem putWar_of_found (store : Store) (clan id param : String) (body : WarBody)
    (warIndex : Nat) (war : War) (doc : PlayerDoc)
    (hv : validWarIndex? param = some warIndex) (hp : parseWarPayload body = .ok war)
    (hf : findOne store id clan = .ok (some doc)) :
    putWar store clan id param body =
      (.player ({ doc with wars := arraySet doc.wars warIndex war.toDoc }.toJSON id),
        Function.update store id
          (some { doc with wars := arraySet doc.wars warIndex war.toDoc })) := by
  simp only [putWar, hv, hp, hf]

/-- The route `PUT /:id/war/:warIndex` leaves the collection as it was unless it
answers with the player. -/
theorem putWar_store_of_not_player (store : Store) (clan id param : String) (body : WarBody)
    (h : ∀ p, (putWar store clan id param body).1 ≠ .player p) :
    (putWar store clan id param body).2 = store := by
  unfold putWar at h ⊢
  cases hv : validWarIndex? param with
  | none => rfl
  | some warIndex =>
    cases hp : parseWarPayload body with
    | error e => rfl
    | ok war =>
      cases hf : findOne store id clan with
      | error message => rfl
      | ok found =>
        cases found with
        | none => rfl
        | some doc =>
          simp only [hv, hp, hf] at h
          exact absurd rfl (h _)

/-- Sending the same request to `PUT /:id/war/:warIndex` a second time gives the
same answer and the same collection. -/
theorem putWar_putWar (store : Store) (clan id param : String) (body : WarBody) :
    putWar (putWar store clan id param body).2 clan id param body =
      putWar store clan id param body := by
  cases hv : validWarIndex? param with
  | none => simp only [putWar, hv]
  | some warIndex =>
    cases hp : parseWarPayload body with
    | error e => simp only [putWar, hv, hp]
    | ok war =>
      cases hf : findOne store id clan with
      | error message => simp only [putWar, hv, hp, hf]
      | ok found =>
        cases found with
        | none => simp only [putWar, hv, hp, hf]
        | some doc =>
          obtain ⟨hid, -, hclan⟩ := (findOne_eq_some store id clan doc).1 hf
          rw [putWar_of_found store clan id param body warIndex war doc hv hp hf]
          have hf2 : findOne (Function.update store id
              (some { doc with wars := arraySet doc.wars warIndex war.toDoc })) id clan =
              .ok (some { doc with wars := arraySet doc.wars warIndex war.toDoc }) := by
            rw [findOne_eq_some]
            exact ⟨hid, Function.update_same _ _ _, hclan⟩
          rw [putWar_of_found _ clan id param body warIndex war _ hv hp hf2]
          simp only [arraySet_arraySet, Function.update_idem]

/-- The route `PUT /:id/war/:warIndex` touches no document but the one of `id`. -/
theorem putWar_store_other (store : Store) (clan id param : String) (body : WarBody)
    (other : String) (h : other ≠ id) :
    (putWar store clan id param body).2 other = store other := by
  unfold putWar
  cases validWarIndex? param with
  | none => rfl
  | some warIndex =>
    cases parseWarPayload body with
    | error e => rfl
    | ok war =>
      cases findOne store id clan with
      | error message => rfl
      | ok found =>
        cases found with
        | none => rfl
        | some doc => exact Function.update_noteq h _ _

/-- The route `PUT /:id/war/:warIndex` reads no document but the one of `id`. -/
theorem putWar_congr (store₁ store₂ : Store) (clan id param : String) (body : WarBody)
    (h : store₁ id = store₂ id) :
    (putWar store₁ clan id param body).1 = (putWar store₂ clan id param body).1 ∧
    (putWar store₁ clan id param body).2 id = (putWar store₂ clan id param body).2 id := by
  have hf : findOne store₁ id clan = findOne store₂ id clan := by
    unfold findOne
    rw [h]
  unfold putWar
  cases validWarIndex? param with
  | none => exact ⟨rfl, h⟩
  | some warIndex =>
    cases parseWarPayload body with
    | error e => exact ⟨rfl, h⟩
    | ok war =>
      simp only [← hf]
      cases findOne store₁ id clan with
      | error message => exact ⟨rfl, h⟩
      | ok found =>
        cases found with
        | none => exact ⟨rfl, h⟩
        | some doc => simp [Function.update_same]

/-- The body sent by `updateWar` is accepted exactly as the slot it was made
from, when it is accepted. -/
theorem parseWarPayload_toBody (war parsed : War)
    (h : parseWarPayload war.toBody = .ok parsed) : parsed = war := by
  obtain ⟨⟨h1, -⟩, ⟨h2, -⟩, ⟨h3, -⟩, ⟨h4, -⟩⟩ := (parseWarPayload_ok_iff _ _).1 h
  simp only [War.toBody, Number, JSNum.fin.injEq] at h1 h2 h3 h4
  cases war
  cases parsed
  simp only [War.mk.injEq]
  exact ⟨h1.symm, h2.symm, h3.symm, h4.symm⟩

/-- A call of `updateWar` touches no document but the one of the player. -/
theorem updateWar_store_other (store : Store) (clan : String) (link : Link)
    (playerId : String) (warIndex : Nat) (war : War) (other : String) (h : other ≠ playerId) :
    (updateWar store clan link playerId warIndex war).store other = store other := by
  unfold updateWar
  cases link with
  | unauthorized => rfl
  | down m => rfl
  | lost m => exact putWar_store_other _ _ _ _ _ _ h
  | up =>
    have := putWar_store_other store clan playerId (toString warIndex) war.toBody other h
    revert this
    cases putWar store clan playerId (toString warIndex) war.toBody with
    | mk response store' =>
      cases response <;> exact fun h => h

/-- A call of `updateWar` reads no document but the one of the player. -/
theorem updateWar_congr (store₁ store₂ : Store) (clan : String) (link : Link)
    (playerId : String) (warIndex : Nat) (war : War) (h : store₁ playerId = store₂ playerId) :
    (updateWar store₁ clan link playerId warIndex war).result =
      (updateWar store₂ clan link playerId warIndex war).result ∧
    (updateWar store₁ clan link playerId warIndex war).loggedOut =
      (updateWar store₂ clan link playerId warIndex war).loggedOut ∧
    (updateWar store₁ clan link playerId warIndex war).store playerId =
      (updateWar store₂ clan link playerId warIndex war).store playerId := by
  have hc := putWar_congr store₁ store₂ clan playerId (toString warIndex) war.toBody h
  unfold updateWar
  cases link with
  | unauthorized => exact ⟨rfl, rfl, h⟩
  | down m => exact ⟨rfl, rfl, h⟩
  | lost m => exact ⟨rfl, rfl, hc.2⟩
  | up =>
    revert hc
    cases putWar store₁ clan playerId (toString warIndex) war.toBody with
    | mk r₁ s₁ =>
      cases putWar store₂ clan playerId (toString warIndex) war.toBody with
      | mk r₂ s₂ =>
        rintro ⟨hr, hs⟩
        simp only at hr hs
        subst hr
        cases r₁ <;> exact ⟨rfl, rfl, hs⟩

/-- A call of `updateWar` that returns a payload has committed the slot it
carried. -/
theorem updateWar_ok (store : Store) (clan : String) (link : Link) (playerId : String)
    (warIndex : Nat) (war : War) (payload : Player) (hw : warIndex < WAR_COUNT)
    (h : (updateWar store clan link playerId warIndex war).result = .ok payload) :
    ∃ doc, (updateWar store clan link playerId warIndex war).store playerId = some doc ∧
      doc.clan = clan ∧ arrayGet doc.wars warIndex = some war.toDoc := by
  unfold updateWar at h ⊢
  cases link with
  | unauthorized => cases h
  | down m => cases h
  | lost m => cases h
  | up =>
    have hv := validWarIndex?_toString warIndex hw
    cases hp : parseWarPayload war.toBody with
    | error e =>
      simp only [putWar, hv, hp] at h
      cases h
    | ok parsed =>
      have hparsed := parseWarPayload_toBody war parsed hp
      subst hparsed
      cases hf : findOne store playerId clan with
      | error message =>
        simp only [putWar, errorHandler, hv, hp, hf] at h
        cases h
      | ok found =>
        cases found with
        | none =>
          simp only [putWar, hv, hp, hf] at h
          cases h
        | some doc =>
          rw [putWar_of_found store clan playerId _ _ warIndex parsed doc hv hp hf]
          refine ⟨_, Function.update_same _ _ _, ((findOne_eq_some _ _ _ _).1 hf).2.2, ?_⟩
          rw [arrayGet_arraySet, if_pos rfl]

/-- A call of `updateWar` logs out exactly when its request is answered 401. -/
theorem updateWar_loggedOut (store : Store) (clan : String) (link : Link)
    (playerId : String) (warIndex : Nat) (war : War) :
    (updateWar store clan link playerId warIndex war).loggedOut = true ↔
      link = .unauthorized := by
  unfold updateWar
  cases link with
  | unauthorized => simp
  | down m => simp
  | lost m => simp
  | up =>
    cases putWar store clan playerId (toString warIndex) war.toBody with
    | mk response store' => cases response <;> simp

/-- A second call of `updateWar` over the same link changes nothing more. -/
theorem updateWar_updateWar (store : Store) (clan : String) (link : Link)
    (playerId : String) (warIndex : Nat) (war : War) :
    (updateWar (updateWar store clan link playerId warIndex war).store clan link playerId
        warIndex war).store =
      (updateWar store clan link playerId warIndex war).store := by
  have hpp := putWar_putWar store clan playerId (toString warIndex) war.toBody
  unfold updateWar
  cases link with
  | unauthorized => rfl
  | down m => rfl
  | lost m => exact congrArg Prod.snd hpp
  | up =>
    revert hpp
    cases putWar store clan playerId (toString warIndex) war.toBody with
    | mk r₁ s₁ =>
      intro hpp
      simp only at hpp
      cases r₁ <;> simp only [hpp]

/-! ## Fan-out -/

/-- A fan-out touches no document but those of the players it is sent for. -/
theorem sendAll_store_other (clan : String) (warIndex : Nat) (links : Nat → Link) :
    ∀ (players : List Player) (k : Nat) (store : Store) (other : String),
      other ∉ players.map (fun p => p._id) →
      (sendAll clan warIndex links k players store).2.2 other = store other
  | [], _, _, _, _ => rfl
  | player :: rest, k, store, other, h => by
    simp only [List.map_cons, List.mem_cons, not_or] at h
    simp only [sendAll]
    rw [sendAll_store_other clan warIndex links rest (k + 1) _ other h.2]
    exact updateWar_store_other _ _ _ _ _ _ _ h.1

/-- A fan-out has one outcome for each player. -/
theorem sendAll_length (clan : String) (warIndex : Nat) (links : Nat → Link) :
    ∀ (players : List Player) (k : Nat) (store : Store),
      (sendAll clan warIndex links k players store).1.length = players.length
  | [], _, _ => rfl
  | player :: rest, k, store => by
    simp only [sendAll, List.length_cons]
    rw [sendAll_length clan warIndex links rest (k + 1) _]

/-- In a fan-out over players with distinct ids, the outcome for the player at
position `i` and the document of that player afterwards are those of the one
call of `updateWar` for that player on the collection before the fan-out. -/
theorem sendAll_at (clan : String) (warIndex : Nat) (links : Nat → Link) :
    ∀ (players : List Player) (k : Nat) (store : Store) (i : Nat) (player : Player),
      (players.map fun p => p._id).Nodup → players.get? i = some player →
      (sendAll clan warIndex links k players store).1.get? i =
        some (updateWar store clan (links (k + i)) player._id warIndex
          (normalizeWar (player.warAt warIndex))).result ∧
      (sendAll clan warIndex links k players store).2.2 player._id =
        (updateWar store clan (links (k + i)) player._id warIndex
          (normalizeWar (player.warAt warIndex))).store player._id
  | [], _, _, _, _, _, h => by simp at h
  | first :: rest, k, store, 0, player, hnd, h => by
    simp only [List.get?_cons_zero, Option.some.injEq] at h
    subst h
    simp only [List.map_cons, List.nodup_cons] at hnd
    simp only [sendAll, List.get?_cons_zero, Nat.add_zero, true_and]
    exact sendAll_store_other clan warIndex links rest (k + 1) _ _ hnd.1
  | first :: rest, k, store, i + 1, player, hnd, h => by
    simp only [List.get?_cons_succ] at h
    simp only [List.map_cons, List.nodup_cons] at hnd
    have hmem : player._id ∈ rest.map fun p => p._id :=
      List.mem_map.2 ⟨player, List.get?_mem h, rfl⟩
    have hne : player._id ≠ first._id := fun he => hnd.1 (he ▸ hmem)
    have ih := sendAll_at clan warIndex links rest (k + 1)
      (updateWar store clan (links k) first._id warIndex
        (normalizeWar (first.warAt warIndex))).store i player hnd.2 h
    have hsame := updateWar_store_other store clan (links k) first._id warIndex
      (normalizeWar (first.warAt warIndex)) player._id hne
    have hc := updateWar_congr _ store clan (links (k + 1 + i)) player._id warIndex
      (normalizeWar (player.warAt warIndex)) hsame
    have hk : k + 1 + i = k + (i + 1) := by omega
    simp only [sendAll, List.get?_cons_succ]
    rw [ih.1, ih.2, hc.1, hc.2.2, hk]
    exact ⟨rfl, rfl⟩

/-- A fan-out logs out exactly when one of its requests is answered 401. -/
theorem sendAll_loggedOut (clan : String) (warIndex : Nat) (links : Nat → Link) :
    ∀ (players : List Player) (k : Nat) (store : Store),
      (sendAll clan warIndex links k players store).2.1 = true ↔
        ∃ i, i < players.length ∧ links (k + i) = .unauthorized
  | [], _, _ => by simp [sendAll]
  | player :: rest, k, store => by
    simp only [sendAll, Bool.or_eq_true, updateWar_loggedOut,
      sendAll_loggedOut clan warIndex links rest (k + 1), List.length_cons]
    constructor
    · rintro (h | ⟨i, hi, h⟩)
      · exact ⟨0, by omega, h⟩
      · exact ⟨i + 1, by omega, by rw [← h]; congr 1; omega⟩
    · rintro ⟨i, hi, h⟩
      cases i with
      | zero => exact Or.inl h
      | succ j => exact Or.inr ⟨j, by omega, by rw [← h]; congr 1; omega⟩

/-- `Promise.all` resolves exactly when every outcome is a payload. -/
theorem promiseAll_ok_iff : ∀ (results : List (Except String Player)),
    (∃ payloads, promiseAll results = .ok payloads) ↔ ∀ r ∈ results, ∃ payload, r = .ok payload
  | [] => by simp [promiseAll]
  | .error m :: rest => by
    simp only [promiseAll, reduceCtorEq, exists_false, List.mem_cons, forall_eq_or_imp,
      false_and]
  | .ok p :: rest => by
    have ih := promiseAll_ok_iff rest
    simp only [promiseAll, List.mem_cons, forall_eq_or_imp, Except.ok.injEq, exists_eq',
      true_and]
    rw [← ih]
    cases promiseAll rest with
    | ok ps => simp
    | error m => simp

/-- `Promise.all` rejects exactly when some outcome is an error. -/
theorem promiseAll_error_iff (results : List (Except String Player)) :
    (∃ message, promiseAll results = .error message) ↔
      ∃ r ∈ results, ∃ message, r = .error message := by
  have h := promiseAll_ok_iff results
  constructor
  · rintro ⟨m, hm⟩
    by_contra hno
    have hall : ∀ r ∈ results, ∃ payload, r = .ok payload := by
      intro r hr
      cases r with
      | ok p => exact ⟨p, rfl⟩
      | error e => exact absurd ⟨_, hr, e, rfl⟩ hno
    obtain ⟨ps, hps⟩ := h.2 hall
    rw [hm] at hps
    cases hps
  · rintro ⟨r, hr, m, rfl⟩
    cases hp : promiseAll results with
    | error e => exact ⟨e, rfl⟩
    | ok ps =>
      obtain ⟨p, hp'⟩ := h.1 ⟨ps, hp⟩ _ hr
      cases hp'

/-! ## Batch save -/

/-- An outcome is a payload exactly when the call succeeded. -/
theorem succeeded_iff (r : Except String Player) :
    succeeded r = true ↔ ∃ payload, r = .ok payload := by
  cases r <;> simp [succeeded]

/-- An edit keeps the ids of the players, in order. -/
theorem handleWarFieldChange_ids (s : ClientState) (playerId : String) (warIndex : Nat)
    (field : Field) (rawValue : JSValue) :
    (handleWarFieldChange s playerId warIndex field rawValue).players.map (fun p => p._id) =
      s.players.map fun p => p._id := by
  simp only [handleWarFieldChange, List.map_map]
  apply List.map_congr_left
  intro p _
  simp only [Function.comp, handleWarFieldChange.update]
  split_ifs <;> rfl

/-- In a fan-out over players with distinct ids for a war index in 0..6, a request
that succeeded has committed the slot of its player. -/
theorem sendAll_committed (clan : String) (warIndex : Nat) (links : Nat → Link)
    (players : List Player) (store : Store) (i : Nat) (player : Player)
    (hw : warIndex < WAR_COUNT) (hnd : (players.map fun p => p._id).Nodup)
    (hi : players.get? i = some player)
    (hok : ∀ r, (sendAll clan warIndex links 0 players store).1.get? i = some r →
      succeeded r = true) :
    ∃ doc, (sendAll clan warIndex links 0 players store).2.2 player._id = some doc ∧
      doc.clan = clan ∧
      arrayGet doc.wars warIndex = some (normalizeWar (player.warAt warIndex)).toDoc := by
  obtain ⟨h1, h2⟩ := sendAll_at clan warIndex links players 0 store i player hnd hi
  obtain ⟨payload, hp⟩ := (succeeded_iff _).1 (hok _ h1)
  rw [h2]
  exact updateWar_ok store clan _ _ warIndex _ payload hw hp

/-- The state of the client after a batch save in which every request succeeded. -/
theorem saveAllWarData_of_ok (clan : String) (links : Nat → Link) (s : ClientState)
    (store : Store) (warIndex : Nat)
    (hok : ∀ r ∈ (sendAll clan warIndex links 0 s.players store).1, succeeded r = true) :
    (saveAllWarData clan links s store warIndex).1.hasUnsavedChanges =
      Function.update s.hasUnsavedChanges warIndex false ∧
    (saveAllWarData clan links s store warIndex).1.savedWar = some warIndex ∧
    (saveAllWarData clan links s store warIndex).1.savingWar = none ∧
    (saveAllWarData clan links s store warIndex).2 =
      (sendAll clan warIndex links 0 s.players store).2.2 := by
  obtain ⟨payloads, hp⟩ := (promiseAll_ok_iff _).2 fun r hr => (succeeded_iff r).1 (hok r hr)
  unfold saveAllWarData saveAllWarData.settle
  simp only [hp]
  split_ifs <;> simp [handleLogout, saveAllWarData.begin]

/-- C13: after an edit of war `warIndex` (one of 0..6) in a working set whose
players have distinct ids, followed by a batch save of `warIndex` in which every
request succeeds, the dirty flag of `warIndex` is false, the recently-saved
marker is `warIndex`, the saving marker is cleared, the collection holds for
every player of the working set, at `warIndex`, the local slot that was sent, and
the stored slot of the edited player holds the edited value in the edited
field. -/
theorem edit_then_saveAll (clan : String) (links : Nat → Link) (s : ClientState)
    (store : Store) (playerId : String) (warIndex : Nat) (field : Field) (rawValue : JSValue)
    (hw : warIndex < WAR_COUNT) (hnd : (s.players.map fun p => p._id).Nodup)
    (hok : ∀ r ∈ (sendAll clan warIndex links 0
        (handleWarFieldChange s playerId warIndex field rawValue).players store).1,
      succeeded r = true) :
    (saveAllWarData clan links (handleWarFieldChange s playerId warIndex field rawValue) store
      warIndex).1.hasUnsavedChanges warIndex = false ∧
    (saveAllWarData clan links (handleWarFieldChange s playerId warIndex field rawValue) store
      warIndex).1.savedWar = some warIndex ∧
    (saveAllWarData clan links (handleWarFieldChange s playerId warIndex field rawValue) store
      warIndex).1.savingWar = none ∧
    (∀ player ∈ (handleWarFieldChange s playerId warIndex field rawValue).players,
      ∃ doc,
        (saveAllWarData clan links (handleWarFieldChange s playerId warIndex field rawValue)
          store warIndex).2 player._id = some doc ∧
        arrayGet doc.wars warIndex = some (normalizeWar (player.warAt warIndex)).toDoc) ∧
    (∀ player ∈ s.players, player._id = playerId →
      ∃ doc,
        (saveAllWarData clan links (handleWarFieldChange s playerId warIndex field rawValue)
          store warIndex).2 playerId = some doc ∧
        (normalizeWar (arrayGet doc.wars warIndex)).get field =
          handleWarFieldChange.value field rawValue) := by
  obtain ⟨h1, h2, h3, h4⟩ := saveAllWarData_of_ok clan links _ store warIndex hok
  have hnd' : ((handleWarFieldChange s playerId warIndex field rawValue).players.map
      fun p => p._id).Nodup := by
    rw [handleWarFieldChange_ids]
    exact hnd
  have hstored : ∀ player ∈ (handleWarFieldChange s playerId warIndex field rawValue).players,
      ∃ doc,
        (saveAllWarData clan links (handleWarFieldChange s playerId warIndex field rawValue)
          store warIndex).2 player._id = some doc ∧
        arrayGet doc.wars warIndex = some (normalizeWar (player.warAt warIndex)).toDoc := by
    intro player hmem
    obtain ⟨i, hi⟩ := List.mem_iff_get?.1 hmem
    obtain ⟨doc, hd, -, hslot⟩ := sendAll_committed clan warIndex links _ store i player hw hnd'
      hi fun r hr => hok r (List.get?_mem hr)
    exact ⟨doc, by rw [h4]; exact hd, hslot⟩
  refine ⟨?_, h2, h3, hstored, ?_⟩
  · rw [h1, Function.update_same]
  · intro player hmem hid
    have hmem' : handleWarFieldChange.update playerId warIndex field
        (handleWarFieldChange.value field rawValue) player ∈
        (handleWarFieldChange s playerId warIndex field rawValue).players :=
      List.mem_map.2 ⟨player, hmem, rfl⟩
    obtain ⟨doc, hd, hslot⟩ := hstored _ hmem'
    have hid' : (handleWarFieldChange.update playerId warIndex field
        (handleWarFieldChange.value field rawValue) player)._id = playerId := by
      simp [handleWarFieldChange.update, hid]
    rw [hid'] at hd
    refine ⟨doc, hd, ?_⟩
    rw [hslot, update_warAt playerId warIndex field _ player hid hw warIndex hw, if_pos rfl,
      normalizeWar_toDoc, normalizeWar_set_get, if_pos rfl]

/-- Witness of C13: on `demoClient` and `demoStore`, after typing `3` into the
attack-stars cell of war 0 of player Ann and a batch save of war 0 in which every
request gets through, the stored slot 0 of Ann has 3 attack stars and the dirty
flag of war 0 is false. -/
theorem edit_then_saveAll_witness :
    0 < WAR_COUNT ∧ (demoClient.players.map fun p => p._id).Nodup ∧
    (∀ r ∈ (sendAll "c1" 0 allUp 0
        (handleWarFieldChange demoClient annId 0 .attackStars (.str "3")).players demoStore).1,
      succeeded r = true) ∧
    (saveAllWarData "c1" allUp (handleWarFieldChange demoClient annId 0 .attackStars (.str "3"))
      demoStore 0).1.hasUnsavedChanges 0 = false ∧
    ((saveAllWarData "c1" allUp (handleWarFieldChange demoClient annId 0 .attackStars (.str "3"))
      demoStore 0).2 annId).map (fun doc => (normalizeWar (arrayGet doc.wars 0)).attackStars) =
      some 3 :=
  ⟨by decide, by decide, by decide!,
    (edit_then_saveAll "c1" allUp demoClient demoStore annId 0 .attackStars (.str "3")
      (by decide) (by decide) (by decide!)).1,
    by decide!⟩

/-- The state of the client after a batch save in which some request failed. -/
theorem saveAllWarData_of_error (clan : String) (links : Nat → Link) (s : ClientState)
    (store : Store) (warIndex : Nat)
    (hfail : ∃ r ∈ (sendAll clan warIndex links 0 s.players store).1, succeeded r = false) :
    ∃ message,
      saveAllWarData clan links s store warIndex =
        ({ (if (sendAll clan warIndex links 0 s.players store).2.1 then
              handleLogout (saveAllWarData.begin s warIndex)
            else saveAllWarData.begin s warIndex) with
            error := orElse message "Unable to save war data", savingWar := none },
          (sendAll clan warIndex links 0 s.players store).2.2) := by
  have herr : ∃ message, promiseAll (sendAll clan warIndex links 0 s.players store).1 =
      .error message := by
    rw [promiseAll_error_iff]
    obtain ⟨r, hr, hs⟩ := hfail
    cases r with
    | ok p => simp [succeeded] at hs
    | error m => exact ⟨_, hr, m, rfl⟩
  obtain ⟨message, hm⟩ := herr
  refine ⟨message, ?_⟩
  unfold saveAllWarData saveAllWarData.settle
  simp only [hm]

/-- The error message recorded by a failed batch save is not empty. -/
theorem orElse_ne_empty (message : String) : orElse message "Unable to save war data" ≠ "" := by
  unfold orElse
  split_ifs with h
  · decide
  · exact h

/-- C14, as stated, fails: when the requests of a batch save are answered with
status 401, the save fails and the local player set is emptied by the logout. -/
theorem saveAllWarData_failure_logout :
    (∃ r ∈ (sendAll "c1" 0 allUnauthorized 0 demoClient.players demoStore).1,
      succeeded r = false) ∧
    demoClient.players ≠ [] ∧
    (saveAllWarData "c1" allUnauthorized demoClient demoStore 0).1.players = [] ∧
    (saveAllWarData "c1" allUnauthorized demoClient demoStore 0).1.error =
      "Session expired. Please log in again." :=
  ⟨by decide!, by decide!, by decide!, by decide!⟩

/-- C14, amended: when at least one request of a batch save of `warIndex` fails,
the dirty flags are left as they were, the recently-saved marker is not set, the
saving marker is cleared and one non-empty error message is recorded; the local
player set is not modified unless a request was answered with status 401, in
which case the logout empties it; and, for a war index in 0..6 and players with
distinct ids, every request that succeeded has its slot committed in the
collection: there is no rollback. -/
theorem saveAllWarData_failure (clan : String) (links : Nat → Link) (s : ClientState)
    (store : Store) (warIndex : Nat)
    (hfail : ∃ r ∈ (sendAll clan warIndex links 0 s.players store).1, succeeded r = false) :
    (saveAllWarData clan links s store warIndex).1.hasUnsavedChanges = s.hasUnsavedChanges ∧
    (saveAllWarData clan links s store warIndex).1.savedWar = none ∧
    (saveAllWarData clan links s store warIndex).1.savingWar = none ∧
    (saveAllWarData clan links s store warIndex).1.error ≠ "" ∧
    ((∀ i, i < s.players.length → links i ≠ .unauthorized) →
      (saveAllWarData clan links s store warIndex).1.players = s.players) ∧
    ((∃ i, i < s.players.length ∧ links i = .unauthorized) →
      (saveAllWarData clan links s store warIndex).1.players = []) ∧
    (warIndex < WAR_COUNT → (s.players.map fun p => p._id).Nodup →
      ∀ i player, s.players.get? i = some player →
        (∀ r, (sendAll clan warIndex links 0 s.players store).1.get? i = some r →
          succeeded r = true) →
        ∃ doc, (saveAllWarData clan links s store warIndex).2 player._id = some doc ∧
          arrayGet doc.wars warIndex =
            some (normalizeWar (player.warAt warIndex)).toDoc) := by
  obtain ⟨message, hm⟩ := saveAllWarData_of_error clan links s store warIndex hfail
  have hlog := sendAll_loggedOut clan warIndex links s.players 0 store
  simp only [Nat.zero_add] at hlog
  rw [hm]
  refine ⟨?_, ?_, rfl, orElse_ne_empty message, ?_, ?_, ?_⟩
  · split_ifs <;> rfl
  · split_ifs <;> rfl
  · intro hno
    have hfalse : ¬ (sendAll clan warIndex links 0 s.players store).2.1 = true := by
      rw [hlog]
      rintro ⟨i, hi, h⟩
      exact hno i hi h
    simp only [hfalse, if_false]
    rfl
  · intro hyes
    simp only [hlog.2 hyes, if_true]
    rfl
  · intro hw hnd i player hi hok
    obtain ⟨doc, hd, -, hslot⟩ :=
      sendAll_committed clan warIndex links s.players store i player hw hnd hi hok
    exact ⟨doc, hd, hslot⟩

/-- Witness of the amended C14: on `demoClient` and `demoStore`, after typing `3`
into the attack-stars cell of war 0 of Ann, a batch save of war 0 in which only
the first request gets through fails, keeps the dirty flag of war 0 and the local
players, and leaves the slot of Ann committed. -/
theorem saveAllWarData_failure_witness :
    (∃ r ∈ (sendAll "c1" 0 firstUp 0
        (handleWarFieldChange demoClient annId 0 .attackStars (.str "3")).players demoStore).1,
      succeeded r = false) ∧
    (saveAllWarData "c1" firstUp (handleWarFieldChange demoClient annId 0 .attackStars (.str "3"))
      demoStore 0).1.hasUnsavedChanges 0 = true ∧
    (saveAllWarData "c1" firstUp (handleWarFieldChange demoClient annId 0 .attackStars (.str "3"))
      demoStore 0).1.savingWar = none ∧
    ((saveAllWarData "c1" firstUp
      (handleWarFieldChange demoClient annId 0 .attackStars (.str "3")) demoStore 0).2 annId).map
        (fun doc => (normalizeWar (arrayGet doc.wars 0)).attackStars) = some 3 :=
  ⟨by decide!,
    by
      rw [(saveAllWarData_failure "c1" firstUp
        (handleWarFieldChange demoClient annId 0 .attackStars (.str "3")) demoStore 0
        (by decide!)).1]
      decide!,
    (saveAllWarData_failure "c1" firstUp
      (handleWarFieldChange demoClient annId 0 .attackStars (.str "3")) demoStore 0
      (by decide!)).2.2.1,
    by decide!⟩

/-- C15, at the failing input: on `demoClient` and `demoStore`, typing `3` into the
attack-stars cell of war 1 of Ann stores 3 locally and sets the dirty flag of
war 1; after a fully successful batch save of war 0 the dirty flag of war 1 is
still set, but the local slot 1 of Ann has 0 attack stars again: the edit was
replaced by the copy returned by the server. -/
theorem saveAllWarData_drops_other_edits :
    ((handleWarFieldChange demoClient annId 1 .attackStars (.str "3")).players.map fun p =>
      (p._id, slotValueOrZero p 1 .attackStars)) = [(annId, 3), (bobId, 0)] ∧
    (handleWarFieldChange demoClient annId 1 .attackStars (.str "3")).hasUnsavedChanges 1 =
      true ∧
    (∀ r ∈ (sendAll "c1" 0 allUp 0
        (handleWarFieldChange demoClient annId 1 .attackStars (.str "3")).players demoStore).1,
      succeeded r = true) ∧
    ((saveAllWarData "c1" allUp (handleWarFieldChange demoClient annId 1 .attackStars (.str "3"))
      demoStore 0).1.players.map fun p => (p._id, slotValueOrZero p 1 .attackStars)) =
      [(annId, 0), (bobId, 0)] ∧
    (saveAllWarData "c1" allUp (handleWarFieldChange demoClient annId 1 .attackStars (.str "3"))
      demoStore 0).1.hasUnsavedChanges 1 = true :=
  ⟨by decide!, by decide!, by decide!, by decide!, by decide!⟩

/-- C16, at the failing input: from the coordinator at rest, a click on the save
button of war 0 followed by a click on the save button of war 1 is a run of the
coordinator after which the save of war 0 is still outstanding, the saving marker
is 1 and the save button of war 0 is enabled; when the save of war 1 then settles,
the saving marker is cleared while the save of war 0 is still outstanding. -/
theorem savingWar_overwritten :
    ((Coordinator.run "c1" demoCoordinator [.clickSave 0, .clickSave 1]).map fun c =>
      (c.saving 0, c.client.savingWar, saveDisabled c.client 0)) =
      some (true, some 1, false) ∧
    ((Coordinator.run "c1" demoCoordinator
        [.clickSave 0, .clickSave 1, .settle 1 allUp]).map fun c =>
      (c.saving 0, c.client.savingWar, saveDisabled c.client 0)) =
      some (true, none, false) ∧
    ((Coordinator.run "c1" demoCoordinator
        [.clickSave 0, .clickSave 1, .clickSave 0]).map fun c =>
      (c.outstanding.map fun o => o.1)) = some [0, 1, 0] :=
  ⟨by decide!, by decide!, by decide!⟩

/-! ## Idempotence, reset, invariant and scoping -/

/-- Sending a fan-out a second time over the same links, for players with distinct
ids, changes the collection no further. -/
theorem sendAll_sendAll (clan : String) (warIndex : Nat) (links : Nat → Link)
    (players : List Player) (store : Store) (hnd : (players.map fun p => p._id).Nodup) :
    (sendAll clan warIndex links 0 players
        (sendAll clan warIndex links 0 players store).2.2).2.2 =
      (sendAll clan warIndex links 0 players store).2.2 := by
  funext id
  by_cases hmem : id ∈ players.map fun p => p._id
  · obtain ⟨player, hp, rfl⟩ := List.mem_map.1 hmem
    obtain ⟨i, hi⟩ := List.mem_iff_get?.1 hp
    have h1 := (sendAll_at clan warIndex links players 0 store i player hnd hi).2
    have h2 := (sendAll_at clan warIndex links players 0
      (sendAll clan warIndex links 0 players store).2.2 i player hnd hi).2
    rw [h2]
    have hc := (updateWar_congr (sendAll clan warIndex links 0 players store).2.2
      (updateWar store clan (links (0 + i)) player._id warIndex
        (normalizeWar (player.warAt warIndex))).store clan (links (0 + i)) player._id warIndex
      (normalizeWar (player.warAt warIndex)) h1).2.2
    rw [hc, updateWar_updateWar, h1]
  · rw [sendAll_store_other clan warIndex links players 0 _ id hmem]

/-- C17: sending the same war-slot update to `PUT /:id/war/:warIndex` a second
time gives the same answer and leaves the collection as the first did, for every
collection, player, war index and body; and the fan-out of a batch save sent a
second time over the same links, with the local players (of distinct ids)
unchanged, changes the collection no further. -/
theorem putWar_idempotent :
    (∀ (store : Store) (clan id warIndexParam : String) (body : WarBody),
      putWar (putWar store clan id warIndexParam body).2 clan id warIndexParam body =
        putWar store clan id warIndexParam body) ∧
    (∀ (clan : String) (warIndex : Nat) (links : Nat → Link) (players : List Player)
      (store : Store), (players.map fun p => p._id).Nodup →
      (sendAll clan warIndex links 0 players
          (sendAll clan warIndex links 0 players store).2.2).2.2 =
        (sendAll clan warIndex links 0 players store).2.2) :=
  ⟨putWar_putWar, sendAll_sendAll⟩

/-- C18: when `POST /reset-war/:warIndex` accepts the war index `warIndex`, it
answers `{ ok: true }` and afterwards every player of the clan has at `warIndex`
the zero record, whatever the slot held before: the players of the clan are the
same documents as before with that slot replaced. -/
theorem resetWar_zero (store : Store) (clan warIndexParam : String) (warIndex : Nat)
    (hv : validWarIndex? warIndexParam = some warIndex) :
    (resetWar store clan warIndexParam).1 = .ok ∧
    (∀ id doc, (resetWar store clan warIndexParam).2 id = some doc → doc.clan = clan →
      arrayGet doc.wars warIndex =
        some { attackStars := some 0, attackPct := some 0, defenseStars := some 0,
               defensePct := some 0 }) ∧
    (∀ id doc, store id = some doc → doc.clan = clan →
      ∃ after, (resetWar store clan warIndexParam).2 id = some after ∧ after.clan = clan ∧
        arrayGet after.wars warIndex =
          some { attackStars := some 0, attackPct := some 0, defenseStars := some 0,
                 defensePct := some 0 }) := by
  simp only [resetWar, hv, true_and]
  constructor
  · intro id doc hdoc hclan
    cases hs : store id with
    | none => simp [hs] at hdoc
    | some d =>
      simp only [hs, Option.map_some', Option.some.injEq] at hdoc
      by_cases hc : d.clan = clan
      · rw [if_pos hc] at hdoc
        subst hdoc
        rw [arrayGet_arraySet, if_pos rfl]
      · rw [if_neg hc] at hdoc
        subst hdoc
        exact absurd hclan hc
  · intro id doc hdoc hclan
    refine ⟨{ doc with
        wars := arraySet doc.wars warIndex
          { attackStars := some 0, attackPct := some 0, defenseStars := some 0,
            defensePct := some 0 } },
      by rw [hdoc, Option.map_some', if_pos hclan], hclan, ?_⟩
    rw [arrayGet_arraySet, if_pos rfl]

/-- Witness of C18: the reset of war 2 for clan `c1` on `demoStore`. -/
theorem resetWar_zero_witness :
    validWarIndex? "2" = some 2 ∧ (resetWar demoStore "c1" "2").1 = .ok :=
  ⟨by decide!, (resetWar_zero demoStore "c1" "2" 2 (by decide!)).1⟩

/-- The range of a complete slot, statistic by statistic, with the bound that an
edit uses for the statistic. -/
theorem War.inRange_iff_get (war : War) :
    war.InRange ↔ ∀ g, 0 ≤ war.get g ∧ war.get g ≤ handleWarFieldChange.max g := by
  obtain ⟨h1, h2, h3, h4⟩ := handleWarFieldChange_max_eq
  constructor
  · rintro ⟨ha, hp, hd, hq⟩ g
    cases g
    · rw [h1]; exact ha
    · rw [h2]; exact hp
    · rw [h3]; exact hd
    · rw [h4]; exact hq
  · intro h
    have ha := h .attackStars
    have hp := h .attackPct
    have hd := h .defenseStars
    have hq := h .defensePct
    rw [h1] at ha
    rw [h2] at hp
    rw [h3] at hd
    rw [h4] at hq
    exact ⟨ha, hp, hd, hq⟩

/-- The zero record is in range. -/
theorem zero_inRange :
    (normalizeWar
      (some { attackStars := some 0, attackPct := some 0, defenseStars := some 0,
              defensePct := some 0 })).InRange := by
  simp [normalizeWar, War.InRange]

/-- Assigning a slot in range at an index in 0..6 keeps the war-slot invariant. -/
theorem warsValid_arraySet (wars : List (Option WarDoc)) (warIndex : Nat) (war : WarDoc)
    (hv : WarsValid wars) (hw : warIndex < WAR_COUNT)
    (hr : (normalizeWar (some war)).InRange) : WarsValid (arraySet wars warIndex war) := by
  obtain ⟨hlen, hslots⟩ := hv
  refine ⟨by rw [length_arraySet_of_lt _ _ _ (by rw [hlen]; exact hw), hlen], ?_⟩
  intro idx hidx
  rw [arrayGet_arraySet]
  split_ifs
  · exact hr
  · exact hslots idx hidx

/-- A newly created player satisfies the war-slot invariant. -/
theorem create_warsValid (name clan : String) : WarsValid (PlayerDoc.create name clan).wars := by
  refine ⟨by simp [PlayerDoc.create, warsDefault, WAR_COUNT], ?_⟩
  intro idx hidx
  unfold WAR_COUNT at hidx
  interval_cases idx <;>
    simp [PlayerDoc.create, warsDefault, List.range, List.range.loop, arrayGet,
      WarSchema.applyDefaults, WarDoc.empty, normalizeWar, War.InRange]

/-- The war-slot invariant of a player, read slot by slot. -/
theorem Player.warsValid_iff (player : Player) :
    player.WarsValid ↔
      (∃ wars, player.wars = some wars ∧ wars.length = WAR_COUNT) ∧
      ∀ idx, idx < WAR_COUNT → (normalizeWar (player.warAt idx)).InRange := by
  constructor
  · rintro ⟨wars, hwars, hlen, hslots⟩
    refine ⟨⟨wars, hwars, hlen⟩, fun idx hidx => ?_⟩
    have : player.warAt idx = arrayGet wars idx := by
      simp [Player.warAt, hwars, arrayGet]
    rw [this]
    exact hslots idx hidx
  · rintro ⟨⟨wars, hwars, hlen⟩, hslots⟩
    refine ⟨wars, hwars, hlen, fun idx hidx => ?_⟩
    have : player.warAt idx = arrayGet wars idx := by
      simp [Player.warAt, hwars, arrayGet]
    rw [← this]
    exact hslots idx hidx

/-- The updater of an edit at a war index in 0..6 keeps the war-slot invariant. -/
theorem update_warsValid (playerId : String) (warIndex : Nat) (field : Field)
    (rawValue : JSValue) (player : Player) (hw : warIndex < WAR_COUNT)
    (hv : player.WarsValid) :
    (handleWarFieldChange.update playerId warIndex field
      (handleWarFieldChange.value field rawValue) player).WarsValid := by
  by_cases hid : player._id = playerId
  · have hslot := ((Player.warsValid_iff player).1 hv).2
    have hmax : (0 : ℚ) ≤ handleWarFieldChange.max field := by
      obtain ⟨h1, h2, h3, h4⟩ := handleWarFieldChange_max_eq
      cases field
      · rw [h1]; norm_num
      · rw [h2]; norm_num
      · rw [h3]; norm_num
      · rw [h4]; norm_num
    have hne : ¬ player._id ≠ playerId := fun h => h hid
    rw [Player.warsValid_iff]
    constructor
    · rw [handleWarFieldChange.update, if_neg hne]
      refine ⟨_, rfl, ?_⟩
      rw [length_arraySet_of_lt _ _ _ (by simpa using hw)]
      simp
    · intro idx hidx
      rw [update_warAt playerId warIndex field _ player hid hw idx hidx]
      split_ifs with h
      · rw [War.inRange_iff_get]
        intro g
        rw [normalizeWar_set_get]
        split_ifs with hg
        · subst hg
          exact clampNumber_bounds rawValue 0 _ hmax
        · exact (War.inRange_iff_get _).1 (hslot warIndex hw) g
      · rw [normalizeWar_toDoc]
        exact hslot idx hidx
  · rw [handleWarFieldChange.update, if_pos hid]
    exact hv

/-- The route `PUT /:id/war/:warIndex` keeps the war-slot invariant. -/
theorem putWar_storeValid (store : Store) (clan id param : String) (body : WarBody)
    (hv : StoreValid store) : StoreValid (putWar store clan id param body).2 := by
  unfold putWar
  cases hi : validWarIndex? param with
  | none => exact hv
  | some warIndex =>
    cases hp : parseWarPayload body with
    | error e => exact hv
    | ok war =>
      cases hf : findOne store id clan with
      | error message => exact hv
      | ok found =>
        cases found with
        | none => exact hv
        | some doc =>
          intro id' doc' hdoc'
          by_cases hid : id' = id
          · subst hid
            simp only [Function.update_same, Option.some.injEq] at hdoc'
            subst hdoc'
            have hr := (parseWarPayload_ok_iff body war).1 hp
            refine warsValid_arraySet _ _ _ (hv id' doc ((findOne_eq_some _ _ _ _).1 hf).2.1)
              (validWarIndex?_lt _ _ hi) ?_
            rw [normalizeWar_toDoc]
            exact ⟨hr.1.2, hr.2.1.2, hr.2.2.1.2, hr.2.2.2.2⟩
          · simp only [Function.update_noteq hid] at hdoc'
            exact hv id' doc' hdoc'

/-- The route `POST /reset-war/:warIndex` keeps the war-slot invariant. -/
theorem resetWar_storeValid (store : Store) (clan param : String) (hv : StoreValid store) :
    StoreValid (resetWar store clan param).2 := by
  unfold resetWar
  cases hi : validWarIndex? param with
  | none => exact hv
  | some warIndex =>
    intro id doc hdoc
    cases hs : store id with
    | none => simp [hs] at hdoc
    | some d =>
      simp only [hs, Option.map_some', Option.some.injEq] at hdoc
      subst hdoc
      split_ifs
      · exact warsValid_arraySet _ _ _ (hv id d hs) (validWarIndex?_lt _ _ hi) zero_inRange
      · exact hv id d hs

/-- C19: the war-slot invariant (exactly seven slots, each with its four
statistics in their closed ranges) holds for a newly created player and is
preserved by an edit of the local state at a war index in 0..6, by the war-slot
update of the server and by the bulk reset. -/
theorem warsValid_invariant :
    (∀ name clan : String, WarsValid (PlayerDoc.create name clan).wars) ∧
    (∀ (s : ClientState) (playerId : String) (warIndex : Nat) (field : Field)
      (rawValue : JSValue), warIndex < WAR_COUNT → (∀ p ∈ s.players, p.WarsValid) →
      ∀ p ∈ (handleWarFieldChange s playerId warIndex field rawValue).players,
        p.WarsValid) ∧
    (∀ (store : Store) (clan id warIndexParam : String) (body : WarBody),
      StoreValid store → StoreValid (putWar store clan id warIndexParam body).2) ∧
    (∀ (store : Store) (clan warIndexParam : String),
      StoreValid store → StoreValid (resetWar store clan warIndexParam).2) := by
  refine ⟨create_warsValid, ?_, putWar_storeValid, resetWar_storeValid⟩
  intro s playerId warIndex field rawValue hw hv p hp
  obtain ⟨q, hq, rfl⟩ := List.mem_map.1 hp
  exact update_warsValid playerId warIndex field rawValue q hw (hv q hq)

/-- An id that is no ObjectId is answered with status 500 by the update, once its
war index and body are accepted, and by the deletion; the collection is left as it
was. -/
theorem routes_of_malformed (store : Store) (clan id : String) (hid : isObjectId id = false) :
    (∀ (warIndexParam : String) (body : WarBody) (warIndex : Nat) (war : War),
      validWarIndex? warIndexParam = some warIndex → parseWarPayload body = .ok war →
      putWar store clan id warIndexParam body = (errorHandler (castErrorMessage id), store)) ∧
    deletePlayer store clan id = (errorHandler (castErrorMessage id), store) := by
  have hf : findOne store id clan = .error (castErrorMessage id) :=
    (findOne_eq_error store id clan _).2 ⟨hid, rfl⟩
  refine ⟨?_, by simp only [deletePlayer, hf]⟩
  intro param body w war hv hp
  simp only [putWar, hv, hp, hf]

/-- C20, as stated, fails: for the player Eve of another clan, the war-slot update
with the war index `9` answers "Invalid war index." and with a body without
`attackStars` it answers "All war values must be numbers.", not "Player not
found."; and for the unknown id `q1`, which is no ObjectId, the deletion and the
update with an accepted war index and body answer with status 500 and the message
of the cast error. -/
theorem putWar_foreign_validation_first :
    findOne demoStore eveId "c1" = .ok none ∧
    (putWar demoStore "c1" eveId "9" nullStarsBody).1 = .error 400 "Invalid war index." ∧
    (putWar demoStore "c1" eveId "0" absentStarsBody).1 =
      .error 400 "All war values must be numbers." ∧
    demoStore "q1" = none ∧
    deletePlayer demoStore "c1" "q1" = (.error 500 (castErrorMessage "q1"), demoStore) ∧
    (putWar demoStore "c1" "q1" "0" coercedBody).1 = .error 500 (castErrorMessage "q1") ∧
    castErrorMessage "q1" ≠ "Player not found." :=
  ⟨by decide!, by decide!, by decide!, by decide!,
    Prod.ext (by decide!) rfl, by decide!, by decide!⟩

/-- C20, amended: when the player id is unknown or belongs to another clan, the
war-slot update and the deletion leave the collection as it was and answer an
error. An update with a rejected war index or body answers that rejection, with
status 400. Otherwise the update, and in every case the deletion, answers 404
"Player not found." when the id is an ObjectId, 24 hexadecimal digits, and with
status 500 when it is not. -/
theorem routes_scoped (store : Store) (clan id : String)
    (hforeign : ∀ doc, store id = some doc → doc.clan ≠ clan) :
    (∀ (warIndexParam : String) (body : WarBody),
      (putWar store clan id warIndexParam body).2 = store ∧
      (validWarIndex? warIndexParam = none →
        (putWar store clan id warIndexParam body).1 = .error 400 "Invalid war index.") ∧
      (∀ warIndex e, validWarIndex? warIndexParam = some warIndex →
        parseWarPayload body = .error e →
        (putWar store clan id warIndexParam body).1 = .error 400 e) ∧
      (∀ warIndex war, validWarIndex? warIndexParam = some warIndex →
        parseWarPayload body = .ok war →
        (isObjectId id = true →
          (putWar store clan id warIndexParam body).1 = .error 404 "Player not found.") ∧
        (isObjectId id = false →
          ∃ message, (putWar store clan id warIndexParam body).1 = .error 500 message))) ∧
    (isObjectId id = true →
      deletePlayer store clan id = (.error 404 "Player not found.", store)) ∧
    (isObjectId id = false →
      ∃ message, deletePlayer store clan id = (.error 500 message, store)) := by
  have hf : isObjectId id = true → findOne store id clan = .ok none :=
    fun hid => (findOne_eq_none store id clan).2 ⟨hid, hforeign⟩
  refine ⟨?_, fun hid => by simp only [deletePlayer, hf hid],
    fun hid => ⟨_, (routes_of_malformed store clan id hid).2⟩⟩
  intro param body
  refine ⟨?_, ?_, ?_, ?_⟩
  · apply putWar_store_of_not_player
    intro p hp
    unfold putWar at hp
    cases hv : validWarIndex? param with
    | none => simp [hv] at hp
    | some w =>
      cases hpp : parseWarPayload body with
      | error e => simp [hv, hpp] at hp
      | ok war =>
        cases hid : isObjectId id with
        | true => simp [hv, hpp, hf hid] at hp
        | false =>
          have := (routes_of_malformed store clan id hid).1 param body w war hv hpp
          unfold putWar at this
          rw [this] at hp
          simp [errorHandler] at hp
  · intro hv
    simp only [putWar, hv]
  · intro w e hv hp
    simp only [putWar, hv, hp]
  · intro w war hv hp
    refine ⟨fun hid => by simp only [putWar, hv, hp, hf hid],
      fun hid => ⟨orElse (castErrorMessage id) "Server error", ?_⟩⟩
    rw [(routes_of_malformed store clan id hid).1 param body w war hv hp]
    rfl

/-- Witness of the amended C20, asked for by the owner of clan `c1`: the player Eve
of clan `c2`, whose id is an ObjectId, and the unknown id `q1`, which is none. -/
theorem routes_scoped_witness :
    ((∀ doc, demoStore eveId = some doc → doc.clan ≠ "c1") ∧ isObjectId eveId = true ∧
      deletePlayer demoStore "c1" eveId = (.error 404 "Player not found.", demoStore)) ∧
    ((∀ doc, demoStore "q1" = some doc → doc.clan ≠ "c1") ∧ isObjectId "q1" = false ∧
      ∃ message, deletePlayer demoStore "c1" "q1" = (.error 500 message, demoStore)) :=
  ⟨⟨((findOne_eq_none demoStore eveId "c1").1 (by decide!)).2, by decide!,
      (routes_scoped demoStore "c1" eveId
        ((findOne_eq_none demoStore eveId "c1").1 (by decide!)).2).2.1 (by decide!)⟩,
    ⟨fun doc h => by simp [demoStore, annId, bobId, eveId] at h, by decide!,
      (routes_scoped demoStore "c1" "q1"
        (fun doc h => by simp [demoStore, annId, bobId, eveId] at h)).2.2 (by decide!)⟩⟩

/-! ## Requests of a batch save -/

/-- A call of `updateWar` is the delivery of its request. -/
theorem deliver_request (store : Store) (clan : String) (link : Link) (playerId : String)
    (warIndex : Nat) (war : War) :
    deliver store clan link (updateWar.request playerId warIndex war) =
      updateWar store clan link playerId warIndex war := by
  cases link <;> rfl

/-- The fan-out of a batch save is the delivery of its requests, in order. -/
theorem sendAll_eq_deliverAll (clan : String) (warIndex : Nat) (links : Nat → Link) :
    ∀ (players : List Player) (k : Nat) (store : Store),
      sendAll clan warIndex links k players store =
        deliverAll clan links k (saveAllWarData.requests players warIndex) store
  | [], _, _ => rfl
  | player :: rest, k, store => by
    simp only [sendAll, saveAllWarData.requests, List.map_cons, deliverAll, deliver_request]
    have ih := sendAll_eq_deliverAll clan warIndex links rest (k + 1)
      (updateWar store clan (links k) player._id warIndex
        (normalizeWar (player.warAt warIndex))).store
    simp only [saveAllWarData.requests] at ih
    rw [ih]

/-- C22: a batch save of `warIndex` makes one request for each player of the
working set, in the order of the working set: the request at position `i` is
addressed to the id of the player at position `i` and to `warIndex`, and carries
the four statistics of that player's slot `warIndex`, missing data sent as 0; for
`warIndex` in 0..6 the route reads the address as `warIndex`; and the fan-out
delivers exactly these requests. -/
theorem saveAllWarData_requests (players : List Player) (warIndex : Nat) :
    (saveAllWarData.requests players warIndex).length = players.length ∧
    (∀ i, (saveAllWarData.requests players warIndex).get? i =
      (players.get? i).map fun player =>
        { playerId := player._id, warIndexParam := toString warIndex
          body :=
            { attackStars := .num (.fin (slotValueOrZero player warIndex .attackStars))
              attackPct := .num (.fin (slotValueOrZero player warIndex .attackPct))
              defenseStars := .num (.fin (slotValueOrZero player warIndex .defenseStars))
              defensePct := .num (.fin (slotValueOrZero player warIndex .defensePct)) } }) ∧
    (warIndex < WAR_COUNT → validWarIndex? (toString warIndex) = some warIndex) ∧
    (∀ (clan : String) (links : Nat → Link) (k : Nat) (store : Store),
      sendAll clan warIndex links k players store =
        deliverAll clan links k (saveAllWarData.requests players warIndex) store) := by
  refine ⟨by simp [saveAllWarData.requests], ?_, validWarIndex?_toString warIndex,
    fun clan links k store => sendAll_eq_deliverAll clan warIndex links players k store⟩
  intro i
  simp only [saveAllWarData.requests, List.get?_eq_getElem?, List.getElem?_map]
  cases players[i]? with
  | none => rfl
  | some player =>
    obtain ⟨h1, h2, h3, h4⟩ := normalizeWar_warAt player warIndex
    simp only [Option.map_some', updateWar.request, War.toBody, h1, h2, h3, h4]

/-! ## Clamping and validation together -/

/-- A slot in range, sent as a body, is accepted as it is. -/
theorem parseWarPayload_toBody_of_inRange (war : War) (h : war.InRange) :
    parseWarPayload war.toBody = .ok war := by
  rw [parseWarPayload_ok_iff]
  obtain ⟨ha, hp, hd, hq⟩ := h
  exact ⟨⟨rfl, ha⟩, ⟨rfl, hp⟩, ⟨rfl, hd⟩, ⟨rfl, hq⟩⟩

/-- A slot in range in which one statistic is replaced by the value computed by
an edit is in range. -/
theorem set_value_inRange (war : War) (h : war.InRange) (field : Field)
    (rawValue : JSValue) :
    (normalizeWar
      (some (war.toDoc.set field (handleWarFieldChange.value field rawValue)))).InRange := by
  have hmax : (0 : ℚ) ≤ handleWarFieldChange.max field := by
    obtain ⟨h1, h2, h3, h4⟩ := handleWarFieldChange_max_eq
    cases field
    · rw [h1]; norm_num
    · rw [h2]; norm_num
    · rw [h3]; norm_num
    · rw [h4]; norm_num
  rw [War.inRange_iff_get]
  intro g
  rw [normalizeWar_set_get]
  split_ifs with hg
  · subst hg
    exact clampNumber_bounds rawValue 0 _ hmax
  · exact (War.inRange_iff_get war).1 h g

/-- C23: for every war slot in range, every statistic and every raw value, the
slot in which the statistic is set to the clamped raw value (bound 3 for stars,
100 for percentages) is accepted by `parseWarPayload`, which returns it
unchanged; its edited statistic is the clamped value and its other statistics are
those of the slot. -/
theorem clamp_then_parse (war : War) (h : war.InRange) (field : Field) (rawValue : JSValue) :
    parseWarPayload
        (normalizeWar
          (some (war.toDoc.set field (handleWarFieldChange.value field rawValue)))).toBody =
      .ok (normalizeWar
        (some (war.toDoc.set field (handleWarFieldChange.value field rawValue)))) ∧
    ∀ g, (normalizeWar
        (some (war.toDoc.set field (handleWarFieldChange.value field rawValue)))).get g =
      if g = field then handleWarFieldChange.value field rawValue else war.get g :=
  ⟨parseWarPayload_toBody_of_inRange _ (set_value_inRange war h field rawValue),
    fun g => normalizeWar_set_get war field _ g⟩

/-- Witness of C23: the zero slot with `150` typed into the attack-percentage
cell is sent with 100 and accepted as such. -/
theorem clamp_then_parse_witness :
    DEFAULT_WAR.InRange ∧
    parseWarPayload
        (normalizeWar
          (some (DEFAULT_WAR.toDoc.set .attackPct
            (handleWarFieldChange.value .attackPct (.str "150"))))).toBody =
      .ok { attackStars := 0, attackPct := 100, defenseStars := 0, defensePct := 0 } := by
  have hr : DEFAULT_WAR.InRange := by simp [DEFAULT_WAR, War.InRange]
  refine ⟨hr, ?_⟩
  rw [(clamp_then_parse DEFAULT_WAR hr .attackPct (.str "150")).1]
  decide!

/-! ## Frame of the bulk reset and war-index check -/

/-- C24: the bulk reset changes nothing else. An id without a document stays
without one; a player of another clan is left as it is; a player of the clan
keeps its name and clan and, when the war index is accepted as `warIndex`, every
slot at an index other than `warIndex` reads as before. With a rejected war
index the collection is left as it is. -/
theorem resetWar_frame (store : Store) (clan warIndexParam id : String) :
    (store id = none → (resetWar store clan warIndexParam).2 id = none) ∧
    (∀ doc, store id = some doc →
      (doc.clan ≠ clan → (resetWar store clan warIndexParam).2 id = some doc) ∧
      ∃ after, (resetWar store clan warIndexParam).2 id = some after ∧
        after.name = doc.name ∧ after.clan = doc.clan ∧
        ∀ warIndex, validWarIndex? warIndexParam = some warIndex →
          ∀ idx, idx ≠ warIndex → arrayGet after.wars idx = arrayGet doc.wars idx) ∧
    (validWarIndex? warIndexParam = none → (resetWar store clan warIndexParam).2 = store) := by
  unfold resetWar
  cases hv : validWarIndex? warIndexParam with
  | none =>
    refine ⟨fun h => h, fun doc hdoc => ⟨fun _ => hdoc, doc, hdoc, rfl, rfl, ?_⟩, fun _ => rfl⟩
    intro w hw
    cases hw
  | some w =>
    refine ⟨fun h => by simp [h], fun doc hdoc => ⟨fun hne => ?_, ?_⟩, fun h => by cases h⟩
    · simp only [hdoc, Option.map_some', if_neg hne]
    · by_cases hc : doc.clan = clan
      · refine ⟨{ doc with
            wars := arraySet doc.wars w
              { attackStars := some 0, attackPct := some 0, defenseStars := some 0,
                defensePct := some 0 } },
          by simp only [hdoc, Option.map_some', if_pos hc], rfl, rfl, ?_⟩
        intro warIndex hw idx hidx
        simp only [Option.some.injEq] at hw
        subst hw
        rw [arrayGet_arraySet, if_neg hidx]
      · exact ⟨doc, by simp only [hdoc, Option.map_some', if_neg hc], rfl, rfl,
          fun _ _ _ _ => rfl⟩

/-- The war index accepted for a parameter: the parameter converts to that
integer, and it is one of 0..6. -/
theorem validWarIndex?_iff (param : String) (warIndex : Nat) :
    validWarIndex? param = some warIndex ↔
      warIndex < WAR_COUNT ∧ Number (.str param) = .fin (warIndex : ℚ) := by
  constructor
  · intro h
    refine ⟨validWarIndex?_lt param warIndex h, ?_⟩
    unfold validWarIndex? at h
    split at h
    · next q hq =>
      split_ifs at h with hc
      simp only [not_or, not_not, not_lt] at hc
      obtain ⟨hden, h0, -⟩ := hc
      have hnum : (q.num : ℚ) = q := Rat.coe_int_num_of_den_eq_one hden
      have h0' : (0 : ℤ) ≤ q.num := by
        rw [← hnum] at h0
        exact_mod_cast h0
      simp only [Option.some.injEq] at h
      rw [hq, ← hnum, ← h]
      congr 1
      have : ((q.num.toNat : ℤ) : ℚ) = (q.num : ℚ) := by rw [Int.toNat_of_nonneg h0']
      exact_mod_cast this.symm
    · cases h
  · rintro ⟨hlt, hnum⟩
    unfold validWarIndex?
    rw [hnum]
    have h7 : (warIndex : ℚ) < (WAR_COUNT : ℚ) := by exact_mod_cast hlt
    have hcond : ¬ (¬ (warIndex : ℚ).den = 1 ∨ (warIndex : ℚ) < 0 ∨
        (warIndex : ℚ) ≥ (WAR_COUNT : ℚ)) := by
      simp only [Rat.den_natCast, not_true_eq_false, false_or, not_or, not_lt, ge_iff_le,
        not_le]
      exact ⟨Nat.cast_nonneg _, h7⟩
    simp only [hcond, if_false, Rat.num_natCast, Int.toNat_ofNat]

/-- The errors of `parseWarPayload` are its two messages. -/
theorem parseWarPayload_error (body : WarBody) (e : String)
    (h : parseWarPayload body = .error e) :
    e = "All war values must be numbers." ∨ e = "War values out of range." := by
  unfold parseWarPayload at h
  split at h
  · split_ifs at h
    simp only [Except.error.injEq] at h
    exact Or.inr h.symm
  · simp only [Except.error.injEq] at h
    exact Or.inl h.symm

/-- C25: both war routes accept the parameter `warIndex` exactly when it converts
to an integer `w` with `0 <= w < 7`, and then use `w`; for every other parameter
(such as `-1`, `7`, `1.5` or `abc`) they answer 400 "Invalid war index." and leave
the collection as it is, whatever the body and whether or not the player exists,
so the check comes before the validation of the body and the lookup of the
player; for an accepted parameter the bulk reset answers `{ ok: true }` and the
update does not answer "Invalid war index." -/
theorem warIndex_check :
    (∀ (param : String) (w : Nat),
      validWarIndex? param = some w ↔ w < WAR_COUNT ∧ Number (.str param) = .fin (w : ℚ)) ∧
    (∀ (store : Store) (clan id param : String) (body : WarBody),
      (¬ ∃ w : Nat, w < WAR_COUNT ∧ Number (.str param) = .fin (w : ℚ)) →
      putWar store clan id param body = (.error 400 "Invalid war index.", store) ∧
      resetWar store clan param = (.error 400 "Invalid war index.", store)) ∧
    (∀ (store : Store) (clan id param : String) (body : WarBody),
      (∃ w : Nat, w < WAR_COUNT ∧ Number (.str param) = .fin (w : ℚ)) →
      (putWar store clan id param body).1 ≠ .error 400 "Invalid war index." ∧
      (resetWar store clan param).1 = .ok) ∧
    [validWarIndex? "-1", validWarIndex? "7", validWarIndex? "1.5", validWarIndex? "abc"] =
      [none, none, none, none] ∧
    [validWarIndex? "0", validWarIndex? "6"] = [some 0, some 6] := by
  refine ⟨validWarIndex?_iff, ?_, ?_, by decide!, by decide!⟩
  · intro store clan id param body hno
    have hv : validWarIndex? param = none := by
      cases h : validWarIndex? param with
      | none => rfl
      | some w => exact absurd ⟨w, (validWarIndex?_iff param w).1 h⟩ hno
    simp only [putWar, resetWar, hv, and_self]
  · rintro store clan id param body ⟨w, hw⟩
    have hv : validWarIndex? param = some w := (validWarIndex?_iff param w).2 hw
    refine ⟨?_, by simp only [resetWar, hv]⟩
    cases hp : parseWarPayload body with
    | error e =>
      have hne : e ≠ "Invalid war index." := by
        rcases parseWarPayload_error body e hp with rfl | rfl <;> decide
      simp only [putWar, hv, hp, ne_eq, Response.error.injEq, true_and]
      exact hne
    | ok war =>
      cases hf : findOne store id clan with
      | error message => simp [putWar, errorHandler, hv, hp, hf]
      | ok found =>
        cases found with
        | none => simp [putWar, hv, hp, hf]
        | some doc => simp [putWar, hv, hp, hf]

/-! ## CSV export -/

/-- No digit character is a newline. -/
theorem digitChar_ne_newline (n : Nat) : Nat.digitChar n ≠ '\n' := by
  rcases Nat.lt_or_ge n 16 with h | h
  · interval_cases n <;> decide
  · have hstar : Nat.digitChar n = '*' := by
      unfold Nat.digitChar
      rw [if_neg (by omega), if_neg (by omega), if_neg (by omega), if_neg (by omega),
        if_neg (by omega), if_neg (by omega), if_neg (by omega), if_neg (by omega),
        if_neg (by omega), if_neg (by omega), if_neg (by omega), if_neg (by omega),
        if_neg (by omega), if_neg (by omega), if_neg (by omega), if_neg (by omega)]
    rw [hstar]
    decide

/-- The digits of a natural number contain no newline. -/
theorem toDigitsCore_no_newline : ∀ (fuel n : Nat) (ds : List Char),
    '\n' ∉ ds → '\n' ∉ Nat.toDigitsCore 10 fuel n ds
  | 0, _, ds, h => by simpa [Nat.toDigitsCore] using h
  | fuel + 1, n, ds, h => by
    have hd : '\n' ∉ Nat.digitChar (n % 10) :: ds := by
      simp only [List.mem_cons, not_or]
      exact ⟨fun he => digitChar_ne_newline _ he.symm, h⟩
    simp only [Nat.toDigitsCore]
    split_ifs
    · exact hd
    · exact toDigitsCore_no_newline fuel _ _ hd

/-- The decimal form of a natural number contains no newline. -/
theorem toString_nat_no_newline (n : Nat) : '\n' ∉ (toString n).toList := by
  have h : (toString n).toList = Nat.toDigits 10 n := rfl
  rw [h]
  exact toDigitsCore_no_newline _ _ _ (List.not_mem_nil _)

/-- The digits of a fraction contain no newline. -/
theorem fractionDigits_no_newline (den : Nat) : ∀ (fuel rem : Nat),
    '\n' ∉ fractionDigits den fuel rem
  | 0, _ => by simp [fractionDigits]
  | fuel + 1, rem => by
    simp only [fractionDigits]
    split_ifs
    · simp
    · simp only [List.mem_cons, not_or]
      exact ⟨fun he => digitChar_ne_newline _ he.symm, fractionDigits_no_newline den fuel _⟩

/-- The decimal form of a number contains no newline. -/
theorem numberToString_no_newline (q : ℚ) : '\n' ∉ (numberToString q).toList := by
  have hint : '\n' ∉ Nat.toDigits 10 (q.num.natAbs / q.den) :=
    toDigitsCore_no_newline _ _ _ (List.not_mem_nil _)
  have hfrac := fractionDigits_no_newline q.den q.den (q.num.natAbs % q.den)
  simp only [numberToString, String.toList, List.mem_append, not_or]
  refine ⟨?_, hint, ?_⟩
  · split_ifs <;> simp
  · split_ifs
    · simp
    · simp only [List.mem_cons, not_or]
      exact ⟨by decide, hfrac⟩

/-- The characters of two strings put together. -/
theorem toList_append (a b : String) : (a ++ b).toList = a.toList ++ b.toList := by
  simp [String.toList]

/-- The line of a row whose name has no newline has no newline. -/
theorem csvLine_no_newline (row : RankedRow) (h : '\n' ∉ row.name.toList) :
    '\n' ∉ (csvLine row).toList := by
  have hcomma : '\n' ∉ (",": String).toList := by decide
  simp only [csvLine, toList_append, List.mem_append, not_or]
  exact ⟨⟨⟨⟨⟨⟨toString_nat_no_newline _, hcomma⟩, h⟩, hcomma⟩,
    numberToString_no_newline _⟩, hcomma⟩, numberToString_no_newline _⟩

/-- Joining lines without newlines by newlines gives as many lines. -/
theorem lineCount_join : ∀ (first : String) (rest : List String),
    (∀ p ∈ first :: rest, '\n' ∉ p.toList) →
    lineCount (join (first :: rest) "\n") = 1 + rest.length
  | first, [], h => by
    have h0 : List.count '\n' first.toList = 0 :=
      List.count_eq_zero.2 (h first (List.mem_cons_self _ _))
    simp only [lineCount, join, h0, List.length_nil]
  | first, second :: rest, h => by
    have h0 := h first (List.mem_cons_self _ _)
    have ih := lineCount_join second rest fun p hp => h p (List.mem_cons_of_mem _ hp)
    have hsep : ("\n" : String).toList = ['\n'] := rfl
    simp only [lineCount, join, toList_append, List.count_append, hsep,
      List.count_eq_zero.2 h0, List.length_cons] at ih ⊢
    simp only [List.count_cons_self, List.count_nil]
    omega

/-- The text of `exportCSV` line by line: the header, then the line of each row. -/
theorem exportCSV_eq (adminLeaderboard : List RankedRow) :
    exportCSV adminLeaderboard =
      join ("Rank,Player,Total Net Stars,Total Net %" :: adminLeaderboard.map csvLine)
        "\n" := by
  have hhead : join ["Rank", "Player", "Total Net Stars", "Total Net %"] "," =
      "Rank,Player,Total Net Stars,Total Net %" := by decide
  have hline : ∀ row : RankedRow,
      join [toString row.rank, row.name, numberToString row.netStars,
        numberToString row.netPct] "," = csvLine row := by
    intro row
    simp only [join, csvLine, String.append_assoc]
  simp only [exportCSV, List.map_cons, hhead, List.map_map, Function.comp_def, hline]

/-- C21, as stated, fails: the leaderboard of the one player `twoLineName`, whose
name contains a newline, has one row, and its CSV text has three lines, not
two. -/
theorem exportCSV_name_with_newline :
    (buildLeaderboard codePointCompare [twoLineName]).length = 1 ∧
    exportCSV (buildLeaderboard codePointCompare [twoLineName]) =
      "Rank,Player,Total Net Stars,Total Net %\n1,Al\nBo,0,0" ∧
    lineCount (exportCSV (buildLeaderboard codePointCompare [twoLineName])) = 3 :=
  ⟨by decide!, by decide!, by decide!⟩

/-- C21, amended: for every leaderboard the CSV text of `exportCSV` is the header
`Rank,Player,Total Net Stars,Total Net %` followed by one entry for each row, in
the order of the leaderboard, the entries separated by a newline; the entry of a
row is its rank, name, net stars and net percentage joined by commas in that
order; and when no name contains a newline the text has `1 + n` lines for `n`
rows. For the players `A` and `B` of the scenario the text is the header, then
`1,B,2,80`, then `2,A,2,60`. -/
theorem exportCSV_lines (adminLeaderboard : List RankedRow) :
    exportCSV adminLeaderboard =
      join ("Rank,Player,Total Net Stars,Total Net %" :: adminLeaderboard.map csvLine)
        "\n" ∧
    (∀ row, csvLine row =
      toString row.rank ++ "," ++ row.name ++ "," ++ numberToString row.netStars ++ "," ++
        numberToString row.netPct) ∧
    ((∀ row ∈ adminLeaderboard, '\n' ∉ row.name.toList) →
      lineCount (exportCSV adminLeaderboard) = 1 + adminLeaderboard.length) ∧
    exportCSV (buildLeaderboard codePointCompare [scenarioA, scenarioB]) =
      "Rank,Player,Total Net Stars,Total Net %\n1,B,2,80\n2,A,2,60" := by
  refine ⟨exportCSV_eq adminLeaderboard, fun _ => rfl, ?_, by decide!⟩
  intro hnames
  rw [exportCSV_eq, lineCount_join, List.length_map]
  intro p hp
  rcases List.mem_cons.1 hp with rfl | hp
  · decide
  · obtain ⟨row, hrow, rfl⟩ := List.mem_map.1 hp
    exact csvLine_no_newline row (hnames row hrow)

end CWL
